import Mathlib

/-!
# Verification of the plate-scanner core of `star-parking-ui`

This file is a shallow embedding, in Lean 4, of the plate-scanner component of
`src/app.js` (class around lines 1530-2009): the plate normalizer
`normalisePlate`, the scan scheduler `scheduleScan`, the camera lifecycle
(`stopCamera`, the capture cycle `captureAndRead` and its OCR continuation),
the confidence gate `handleOCRResult`, and the booking lookup `lookupByReg`
with its deterministic mock `mockFetch`.

Strings are embedded as `List Char` (JavaScript strings are sequences of
code units; all texts involved here are ASCII).  JavaScript numbers that the
code ever compares or stores in these paths are non-negative integers, and
are embedded as `Nat`; the falsy coalescing `x || d` on numbers maps `0` and
`NaN`/`undefined` (embedded as `none`) to `d`.  The two plate regular
expressions are embedded as explicit backtracking matchers with exactly the
greedy/backtracking search order of the JavaScript regex engine, and
`String.prototype.matchAll` as a left-to-right scan that resumes at the end
of each (non-empty) match.  `Array.prototype.sort` is stable per the
ECMAScript specification and is embedded as `List.mergeSort`.
-/

namespace StarParking

/-! ## Character classes (JavaScript regex semantics, by code point) -/

/-- `[A-Z]`: code points 65-90. -/
def isUpperAZ (c : Char) : Bool := 65 ≤ c.toNat && c.toNat ≤ 90

/-- `\d` = `[0-9]`: code points 48-57. -/
def isDigit09 (c : Char) : Bool := 48 ≤ c.toNat && c.toNat ≤ 57

/-- `[a-z]`: code points 97-122. -/
def isLowerAZ (c : Char) : Bool := 97 ≤ c.toNat && c.toNat ≤ 122

/-- `\s` (the ASCII part: space, tab, LF, VT, FF, CR).  The cleaned plate
text only ever contains the plain space, so the Unicode space classes are
irrelevant here. -/
def isSpaceJS (c : Char) : Bool :=
  c.toNat = 32 || c.toNat = 9 || c.toNat = 10 || c.toNat = 13 || c.toNat = 11 || c.toNat = 12

/-- `\w` = `[A-Za-z0-9_]`, the word characters used by the `\b` assertion. -/
def isWordJS (c : Char) : Bool :=
  isUpperAZ c || isLowerAZ c || isDigit09 c || c = '_'

/-! ## The cleanup pipeline of `normalisePlate` (src/app.js lines 1655-1658)

```js
let t = text.toUpperCase()
    .replace(/\n/g, ' ')
    .replace(/[^A-Z0-9 ]/g, '')
    .replace(/O/g, '0');
```
-/

/-- `text.toUpperCase().replace(/\n/g,' ').replace(/[^A-Z0-9 ]/g,'').replace(/O/g,'0')`. -/
def cleanPlateText (s : List Char) : List Char :=
  ((((s.map Char.toUpper).map
      (fun c => if c = '\n' then ' ' else c)).filter
      (fun c => isUpperAZ c || isDigit09 c || c = ' ')).map
      (fun c => if c = 'O' then '0' else c))

/-! ## Backtracking regex matchers for the two plate shapes

`UK_REGEXES` (src/app.js lines 1548-1551):
```js
/\b([A-Z]{2}\d{2}\s?[A-Z]{3})\b/g,              // current format
/\b([A-Z]{1,3}\d{1,4}\s?[A-Z]{1,3})\b/g,         // cherished formats
```
A matcher state records the character just before the current position
(needed by the `\b` word-boundary assertion) and the remaining input. -/

structure MState where
  prev : Option Char
  rest : List Char
deriving DecidableEq, Repr

/-- Does the `\b` assertion hold between `prev` and the head of `rest`? -/
def boundaryAt (st : MState) : Bool :=
  (match st.prev with
   | some c => isWordJS c
   | none => false)
  != (match st.rest.head? with
      | some c => isWordJS c
      | none => false)

/-- Consume one character satisfying `p`. -/
def consume1 (p : Char → Bool) (st : MState) : Option MState :=
  match st.rest with
  | [] => none
  | c :: cs => if p c then some ⟨some c, cs⟩ else none

/-- Consume exactly `n` characters satisfying `p` (a fixed greedy quantifier
such as `[A-Z]{2}` has no choice points). -/
def consumeN (p : Char → Bool) : Nat → MState → Option MState
  | 0, st => some st
  | n + 1, st => consume1 p st >>= consumeN p n

/-- `\s?`, greedy: first try to consume one space and continue with `k`;
on failure backtrack and continue without consuming. -/
def optSpace (k : MState → Option MState) (st : MState) : Option MState :=
  (consume1 isSpaceJS st >>= k) <|> k st

/-- A greedy bounded quantifier `p{lo,hi}` followed by continuation `k`:
try the repetition counts in the given (descending) order, returning the
first branch in which both the repetition and the continuation succeed.
This is exactly the backtracking order of the JavaScript regex engine. -/
def tryCounts (p : Char → Bool) (counts : List Nat) (k : MState → Option MState)
    (st : MState) : Option MState :=
  match counts with
  | [] => none
  | n :: ns => (consumeN p n st >>= k) <|> tryCounts p ns k st

/-- The trailing `\b` assertion (consumes nothing). -/
def endBoundary (st : MState) : Option MState :=
  if boundaryAt st then some st else none

/-- `/\b([A-Z]{2}\d{2}\s?[A-Z]{3})\b/` attempted at the current position. -/
def matchPat1 (st : MState) : Option MState :=
  if boundaryAt st then
    consumeN isUpperAZ 2 st >>= fun st1 =>
      consumeN isDigit09 2 st1 >>= fun st2 =>
        optSpace (fun st3 => consumeN isUpperAZ 3 st3 >>= endBoundary) st2
  else none

/-- `/\b([A-Z]{1,3}\d{1,4}\s?[A-Z]{1,3})\b/` attempted at the current
position. -/
def matchPat2 (st : MState) : Option MState :=
  if boundaryAt st then
    tryCounts isUpperAZ [3, 2, 1] (fun st1 =>
      tryCounts isDigit09 [4, 3, 2, 1] (fun st2 =>
        optSpace (fun st3 =>
          tryCounts isUpperAZ [3, 2, 1] endBoundary st3) st2) st1) st
  else none

/-- `m[1].replace(/\s/g, '')`: strip internal whitespace from a match. -/
def stripWS (s : List Char) : List Char := s.filter (fun c => !isSpaceJS c)

/-- The `prev` field after consuming `l`: the last character of `l`, or the
old `prev` when `l` is empty. -/
def lastOr (prev : Option Char) : List Char → Option Char
  | [] => prev
  | c :: cs => lastOr (some c) cs

/-- The shape of a whitespace-stripped match of the current-format pattern
`[A-Z]{2}\d{2}\s?[A-Z]{3}`. -/
def Shape1 (p : List Char) : Prop :=
  ∃ A D B, p = A ++ D ++ B ∧
    A.length = 2 ∧ (∀ c ∈ A, isUpperAZ c = true) ∧
    D.length = 2 ∧ (∀ c ∈ D, isDigit09 c = true) ∧
    B.length = 3 ∧ (∀ c ∈ B, isUpperAZ c = true)

/-- The shape of a whitespace-stripped match of the cherished pattern
`[A-Z]{1,3}\d{1,4}\s?[A-Z]{1,3}`. -/
def Shape2 (p : List Char) : Prop :=
  ∃ A D B, p = A ++ D ++ B ∧
    1 ≤ A.length ∧ A.length ≤ 3 ∧ (∀ c ∈ A, isUpperAZ c = true) ∧
    1 ≤ D.length ∧ D.length ≤ 4 ∧ (∀ c ∈ D, isDigit09 c = true) ∧
    1 ≤ B.length ∧ B.length ≤ 3 ∧ (∀ c ∈ B, isUpperAZ c = true)

/-- One step of `matchAll`: scan left to right for the first position where
`mp` matches; record the (whitespace-stripped) capture and resume right
after it.  A zero-length match is recorded and the scan advances one
character (JavaScript `lastIndex` handling); the two plate patterns never
produce one.  `fuel` bounds the recursion; `scanMatches` supplies
`s.length + 1`, which is never exhausted since every step consumes at least
one character of `s`. -/
def scanAux (mp : MState → Option MState) : Nat → Option Char → List Char → List (List Char)
  | 0, _, _ => []
  | fuel + 1, prev, s =>
    match mp ⟨prev, s⟩ with
    | some st1 =>
      let n := s.length - st1.rest.length
      if 0 < n then
        stripWS (s.take n) :: scanAux mp fuel ((s.take n).getLast?) (s.drop n)
      else
        stripWS [] :: (match s with
          | [] => []
          | c :: cs => scanAux mp fuel (some c) cs)
    | none =>
      match s with
      | [] => []
      | c :: cs => scanAux mp fuel (some c) cs

/-- `[...t.matchAll(re)].map(m => m[1].replace(/\s/g,''))` for the regex
embedded by `mp`. -/
def scanMatches (mp : MState → Option MState) (s : List Char) : List (List Char) :=
  scanAux mp (s.length + 1) none s

/-- `Math.abs(7 - a.length)`: distance of a candidate length from the 7
significant characters of a current-format mark. -/
def dist7 (m : List Char) : Nat := ((7 : Int) - m.length).natAbs

/-- The comparator `(a, b) => Math.abs(7-a.length) - Math.abs(7-b.length)`
as the Boolean order used by the (stable) sort. -/
def sortKeyLe (a b : List Char) : Bool := dist7 a ≤ dist7 b

/-- `matches.sort((a,b) => Math.abs(7-a.length) - Math.abs(7-b.length))[0]`.
ECMAScript's `Array.prototype.sort` is stable, so it is embedded as a stable
merge sort; `[0]` on an empty array would be `undefined`, hence `Option`. -/
def pickBest (ms : List (List Char)) : Option (List Char) :=
  (ms.mergeSort sortKeyLe).head?

/-- The `for (const re of this.UK_REGEXES)` loop of `normalisePlate`
(src/app.js lines 1660-1666): first pattern with any match wins. -/
def findFirstMatch : List (MState → Option MState) → List Char → Option (List Char)
  | [], _ => none
  | mp :: mps, t =>
    let ms := scanMatches mp t
    if ms.isEmpty then findFirstMatch mps t else pickBest ms

/-- `normalisePlate` (src/app.js lines 1653-1668). -/
def normalisePlate (text : List Char) : Option (List Char) :=
  if text = [] then none
  else findFirstMatch [matchPat1, matchPat2] (cleanPlateText text)

/-- `normalisePlate` on a nullable argument: `if (!text) return null` treats
both `null`/`undefined` (here `none`) and the empty string as no input. -/
def normalize (text : Option (List Char)) : Option (List Char) :=
  match text with
  | none => none
  | some t => normalisePlate t

/-- The expected input/output pairs of the component's self test `runTests`
(src/app.js lines 1982-1990). -/
def runTestsCases : List (List Char × Option (List Char)) :=
  [("AB12 CDE".toList, some "AB12CDE".toList),
   ("ab12cde".toList, some "AB12CDE".toList),
   ("0O12 CDE".toList, some "0012CDE".toList),
   ("A1 REZ".toList, some "A1REZ".toList),
   ("STAR 1".toList, some "STAR1".toList),
   ("bad text no plate".toList, none),
   ("GF12 ABC parked".toList, some "GF12ABC".toList)]

/-! ## Specification-side selection (for the refinement claim C3)

Modelled from the spec's words: "from the matches found by the first
pattern that yields any match, select the one whose length (internal
whitespace stripped) is closest to 7 characters (ties broken by earliest
match position in source order)". -/

/-- The earliest element of `ms` whose `dist7` is minimal over `ms`. -/
def selectClosest7 (ms : List (List Char)) : Option (List Char) :=
  ms.find? (fun m => ms.all (fun q => dist7 m ≤ dist7 q))

/-- The spec's wording of `normalisePlate`: clean, then try the patterns in
order (current format first, then cherished), and from the first pattern
with any match return the whitespace-stripped match closest in length to 7,
ties to the earliest match. -/
def specFindFirst : List (MState → Option MState) → List Char → Option (List Char)
  | [], _ => none
  | mp :: mps, t =>
    let ms := scanMatches mp t
    if ms.isEmpty then specFindFirst mps t else selectClosest7 ms

/-- Spec-side `normalisePlate` (differs from the embedding only in how the
winning match is selected). -/
def specNormalisePlate (text : List Char) : Option (List Char) :=
  if text = [] then none
  else specFindFirst [matchPat1, matchPat2] (cleanPlateText text)

/-! ## Booking lookup (src/app.js lines 1891-1976)

The HTTP layer is embedded as follows: a `Response` carries its status code
and, when the body is a JSON booking object, that booking (`response.json()`
on a non-JSON body throws, which the `catch` in `lookupByReg` turns into the
"No booking found" rendering).  A fetch either yields a `Response` or fails
in transport (a rejected promise), also caught by the same `catch`. -/

structure Booking where
  reg : List Char
  status : List Char
  customer : List Char
  product : List Char
  terminal : List Char
  arrival : List Char
  phone : List Char
  bookingId : List Char
deriving DecidableEq, Repr

structure Response where
  status : Nat
  booking : Option Booking
deriving DecidableEq, Repr

/-- `response.ok`: status in the range 200-299. -/
def Response.ok (r : Response) : Bool := 200 ≤ r.status && r.status < 300

inductive FetchOutcome where
  | success (r : Response)
  | networkError
deriving DecidableEq, Repr

/-! ### URL building and parsing

`lookupByReg` builds `/api/bookings?reg=${encodeURIComponent(reg)}` and
`mockFetch` reads it back with `new URL(url).searchParams.get('reg')`. -/

/-- Hex digit (upper case), for percent-encoding. -/
def hexDigit (n : Nat) : Char :=
  if n < 10 then Char.ofNat (48 + n) else Char.ofNat (55 + n)

/-- Value of a hex digit character, if any. -/
def hexVal (c : Char) : Option Nat :=
  if 48 ≤ c.toNat && c.toNat ≤ 57 then some (c.toNat - 48)
  else if 65 ≤ c.toNat && c.toNat ≤ 70 then some (c.toNat - 55)
  else if 97 ≤ c.toNat && c.toNat ≤ 102 then some (c.toNat - 87)
  else none

/-- Characters `encodeURIComponent` leaves unescaped. -/
def uriUnreserved (c : Char) : Bool :=
  isUpperAZ c || isLowerAZ c || isDigit09 c ||
  c = '-' || c = '_' || c = '.' || c = '!' || c = '~' || c = '*' ||
  c = '\x27' || c = '(' || c = ')'

/-- `encodeURIComponent` (ASCII range; the plates passed here are ASCII). -/
def encodeURIComponent (s : List Char) : List Char :=
  s.flatMap (fun c =>
    if uriUnreserved c then [c]
    else ['%', hexDigit (c.toNat / 16 % 16), hexDigit (c.toNat % 16)])

/-- Percent-decoding as applied by `URLSearchParams` (`+` means space). -/
def percentDecode : List Char → List Char
  | [] => []
  | '%' :: h1 :: h2 :: rest =>
    match hexVal h1, hexVal h2 with
    | some v1, some v2 => Char.ofNat (16 * v1 + v2) :: percentDecode rest
    | _, _ => '%' :: percentDecode (h1 :: h2 :: rest)
  | '+' :: rest => ' ' :: percentDecode rest
  | c :: rest => c :: percentDecode rest

/-- Split a query string at `&` separators. -/
def splitAmp (s : List Char) : List (List Char) :=
  match s.splitOn '&' with
  | ps => ps

/-- The query-string part of a URL (everything after the first `?`). -/
def queryString (url : List Char) : List Char :=
  ((url.dropWhile (fun c => c ≠ '?')).drop 1)

/-- `new URL(url, origin).searchParams.get(name)`. -/
def searchParamGet (url : List Char) (name : List Char) : Option (List Char) :=
  (splitAmp (queryString url)).findSome? (fun pair =>
    if (name ++ ['=']).isPrefixOf pair then
      some (percentDecode (pair.drop (name.length + 1)))
    else none)

/-- The URL built by `lookupByReg` (src/app.js line 1893). -/
def bookingUrl (reg : List Char) : List Char :=
  "/api/bookings?reg=".toList ++ encodeURIComponent reg

/-- The allow-list of the mock gateway (src/app.js line 1957). -/
def validRegs : List (List Char) :=
  ["AB12CDE".toList, "REZ123".toList, "STAR001".toList, "GF12ABC".toList]

/-- The fixed booking `mockFetch` returns for an allow-listed plate.
`arrival` is `new Date(Date.now() + 3600000).toISOString()`; the clock is
external, so the resulting ISO string is a parameter `arrivalIso`. -/
def mockBooking (arrivalIso : List Char) (reg : List Char) : Booking :=
  { reg := reg
    status := "due in".toList
    customer := "Test User".toList
    product := "Meet and Greet".toList
    terminal := "T3".toList
    arrival := arrivalIso
    phone := "+44 7700 900123".toList
    bookingId := "SP-TEST".toList }

/-- `mockFetch` (src/app.js lines 1954-1976): look up the `reg` query
parameter, upper-case it, and answer 200 with a booking for allow-listed
plates, 404 with a non-JSON body (`'not found'`) otherwise. -/
def mockFetch (arrivalIso : List Char) (url : List Char) : Response :=
  let reg := ((searchParamGet url "reg".toList).getD []).map Char.toUpper
  if reg ∈ validRegs then
    { status := 200, booking := some (mockBooking arrivalIso reg) }
  else
    { status := 404, booking := none }

/-! ## The scanner state machine

One record holds the fields of the component instance (`this.stream`,
`this.worker`, `this.timer`, ...), the relevant DOM inputs and display
sinks, and the armed timers of the browser event loop (`pending`).  Timer
handles are numbered by a counter `nextId`; `setTimeout` arms `nextId` and
`clearTimeout t` removes `t` from `pending`.  Two counters record the
externally visible capture work (`frame.getContext('2d').drawImage` and
`worker.recognize`) so that "performs no capture and no OCR" is a statement
about the model state. -/

inductive LogEntry where
  | cameraStarted
  | cameraStopped
  | ocrReady
  | ocrError
  | detected (plate : List Char) (confidence : Nat)
  | noPlateMatched
deriving DecidableEq, Repr

inductive BookingBox where
  | initial
  | bookingShown (b : Booking)
  | noBookingFound (reg : List Char)
deriving DecidableEq, Repr

structure ScannerState where
  stream : Bool
  worker : Bool
  video : Bool
  timer : Option Nat
  pending : List Nat
  nextId : Nat
  autoCapture : Bool
  mockToggle : Bool
  intervalInput : Option Nat
  confidenceInput : Option Nat
  lastPlate : Option (List Char)
  bookingBox : BookingBox
  log : List LogEntry
  inFlight : Bool
  startDisabled : Bool
  stopDisabled : Bool
  framesCaptured : Nat
  ocrRequests : Nat
deriving DecidableEq, Repr

/-- `Math.max(300, Number(this.intervalEl.value) || 1500)` (src line 1829).
`none` embeds an empty or non-numeric input (`Number` gives `0` or `NaN`,
both falsy). -/
def scanInterval (v : Option Nat) : Nat :=
  max 300 (match v with
    | none => 1500
    | some n => if n = 0 then 1500 else n)

/-- `scheduleScan` (src/app.js lines 1827-1831): cancel any prior timer,
then arm a fresh one. -/
def scheduleScan (s : ScannerState) : ScannerState :=
  let pending1 := match s.timer with
    | some t => s.pending.erase t
    | none => s.pending
  { s with pending := pending1 ++ [s.nextId]
           timer := some s.nextId
           nextId := s.nextId + 1 }

/-- `stopCamera` (src/app.js lines 1811-1825). -/
def stopCamera (s : ScannerState) : ScannerState :=
  let s1 := match s.timer with
    | some t => { s with pending := s.pending.erase t, timer := none }
    | none => s
  { s1 with stream := false
            startDisabled := false
            stopDisabled := true
            log := LogEntry.cameraStopped :: s1.log }

/-- The entry of `captureAndRead` (src/app.js lines 1849-1863) up to the
`await worker.recognize(frame)` suspension point:
`if (!this.stream || !this.worker || !this.video) return;` then capture a
frame and submit it to OCR. -/
def captureAndRead (s : ScannerState) : ScannerState :=
  if s.stream && s.worker && s.video then
    { s with framesCaptured := s.framesCaptured + 1
             ocrRequests := s.ocrRequests + 1
             inFlight := true }
  else s

/-- A pending timer fires: the event loop retires the handle (the stale id
stays in `this.timer`; the code never nulls it on firing) and runs the
`captureAndRead` callback. -/
def fireTimer (s : ScannerState) (t : Nat) : ScannerState :=
  captureAndRead { s with pending := s.pending.erase t }

/-- The OCR result record consumed by `handleOCRResult`: `data.text` and
`data.confidence` (`none` embeds a missing/`NaN` confidence). -/
structure OCRData where
  text : List Char
  confidence : Option Nat
deriving DecidableEq, Repr

/-- `Math.round(data.confidence || 55)` (src line 1879): a missing or zero
confidence falls back to 55 (rounding is the identity on the `Nat`
embedding). -/
def ocrConfidenceValue (c : Option Nat) : Nat :=
  match c with
  | none => 55
  | some n => if n = 0 then 55 else n

/-- `Number(this.confidenceEl.value) || 45` (src line 1882): an empty,
non-numeric or zero threshold input falls back to 45. -/
def thresholdValue (v : Option Nat) : Nat :=
  match v with
  | none => 45
  | some n => if n = 0 then 45 else n

/-- `plate.replace(/(.{2})(.{2})(.{3})/, '$1$2 $3')` (src lines 1632 and
1878): reformat the first 7 characters as `XXXX YYY`; shorter strings are
unchanged.  (`.` does not match line terminators, but no input on these
paths contains one.) -/
def formatPlate (p : List Char) : List Char :=
  if 7 ≤ p.length then
    p.take 4 ++ [' '] ++ (p.drop 4).take 3 ++ p.drop 7
  else p

/-- `lookupByReg` (src/app.js lines 1891-1911).  `netFetch` is the real
`fetch` of the environment; the mock toggle replaces it by `mockFetch`.
Any throw inside the `try` (transport failure, non-2xx turned into
`throw new Error('No match')`, or `response.json()` on a non-JSON body)
lands in the `catch`, which renders "No booking found" for the plate. -/
def lookupByReg (netFetch : List Char → FetchOutcome) (arrivalIso : List Char)
    (s : ScannerState) (reg : List Char) : ScannerState :=
  let url := bookingUrl reg
  let outcome := if s.mockToggle then FetchOutcome.success (mockFetch arrivalIso url)
                 else netFetch url
  match outcome with
  | FetchOutcome.networkError => { s with bookingBox := BookingBox.noBookingFound reg }
  | FetchOutcome.success r =>
    if r.ok then
      match r.booking with
      | some b => { s with bookingBox := BookingBox.bookingShown b }
      | none => { s with bookingBox := BookingBox.noBookingFound reg }
    else { s with bookingBox := BookingBox.noBookingFound reg }

/-- `handleOCRResult` (src/app.js lines 1875-1889). -/
def handleOCRResult (netFetch : List Char → FetchOutcome) (arrivalIso : List Char)
    (s : ScannerState) (d : OCRData) : ScannerState :=
  match normalisePlate d.text with
  | some plate =>
    let confidence := ocrConfidenceValue d.confidence
    let s1 := { s with lastPlate := some (formatPlate plate)
                       log := LogEntry.detected plate confidence :: s.log }
    if thresholdValue s.confidenceInput ≤ confidence then
      lookupByReg netFetch arrivalIso s1 plate
    else s1
  | none => { s with log := LogEntry.noPlateMatched :: s.log }

/-- The continuation of `captureAndRead` after `await worker.recognize`
resolves (src/app.js lines 1862-1872): `some d` is a successful OCR pass
handed to `handleOCRResult`; `none` is a rejected recognition, logged as
'OCR error' by the `catch`.  The `finally` block re-arms the scheduler
whenever auto-capture is checked — without consulting `this.stream` or any
other liveness state. -/
def ocrContinuation (netFetch : List Char → FetchOutcome) (arrivalIso : List Char)
    (s : ScannerState) (res : Option OCRData) : ScannerState :=
  let s1 := { s with inFlight := false }
  let s2 := match res with
    | some d => handleOCRResult netFetch arrivalIso s1 d
    | none => { s1 with log := LogEntry.ocrError :: s1.log }
  if s2.autoCapture then scheduleScan s2 else s2

/-- The `interval` input `change` handler (src/app.js lines 1608-1614):
re-arm only if a timer is armed. -/
def intervalChanged (s : ScannerState) (v : Option Nat) : ScannerState :=
  let s1 := { s with intervalInput := v }
  match s1.timer with
  | some _ => scheduleScan s1
  | none => s1

/-- The `autoCapture` checkbox `change` handler (src/app.js lines
1616-1625). -/
def toggleAutoCapture (s : ScannerState) (checked : Bool) : ScannerState :=
  let s1 := { s with autoCapture := checked }
  if checked then scheduleScan s1
  else match s1.timer with
    | some t => { s1 with pending := s1.pending.erase t, timer := none }
    | none => s1

/-- The success path of `startCamera` (src/app.js lines 1746-1795): acquire
the stream, initialize the OCR worker if needed, and arm the scheduler when
auto-capture is checked.  (The failure paths only log/alert and never touch
the timer.) -/
def startCameraSuccess (s : ScannerState) : ScannerState :=
  let s1 := { s with stream := true
                     startDisabled := true
                     stopDisabled := false
                     log := LogEntry.cameraStarted :: s.log }
  let s2 := if s1.worker then s1
            else { s1 with worker := true, log := LogEntry.ocrReady :: s1.log }
  if s2.autoCapture then scheduleScan s2 else s2

/-- The manual lookup button (src/app.js lines 1628-1635): trim, uppercase
and strip whitespace, then look the string up directly. -/
def manualLookup (netFetch : List Char → FetchOutcome) (arrivalIso : List Char)
    (s : ScannerState) (raw : List Char) : ScannerState :=
  let val := stripWS (raw.map Char.toUpper)
  if val = [] then s
  else lookupByReg netFetch arrivalIso
    { s with lastPlate := some (formatPlate val) } val

/-- One step of the scanner: every modelled operation that the UI layer or
the event loop can invoke on the component. -/
inductive Step (netFetch : List Char → FetchOutcome) (arrivalIso : List Char) :
    ScannerState → ScannerState → Prop where
  | schedule (s) : Step netFetch arrivalIso s (scheduleScan s)
  | stopCam (s) : Step netFetch arrivalIso s (stopCamera s)
  | fire (s) (t : Nat) (h : t ∈ s.pending) : Step netFetch arrivalIso s (fireTimer s t)
  | ocrDone (s) (res : Option OCRData) (h : s.inFlight = true) :
      Step netFetch arrivalIso s (ocrContinuation netFetch arrivalIso s res)
  | interval (s) (v : Option Nat) : Step netFetch arrivalIso s (intervalChanged s v)
  | toggleAuto (s) (b : Bool) : Step netFetch arrivalIso s (toggleAutoCapture s b)
  | startCamOk (s) : Step netFetch arrivalIso s (startCameraSuccess s)
  | manual (s) (raw : List Char) :
      Step netFetch arrivalIso s (manualLookup netFetch arrivalIso s raw)

/-- The at-most-one-armed-timer invariant: either no scan timer is armed, or
exactly the one recorded in `this.timer` is; and armed handles are below the
`setTimeout` counter (fresh handles are always new). -/
def TimerInv (s : ScannerState) : Prop :=
  (s.pending = [] ∨ ∃ t, s.pending = [t] ∧ s.timer = some t) ∧
  (∀ t, s.timer = some t → t < s.nextId)

/-- A concrete freshly-initialized scanner (used by the witnesses). -/
def initScanner : ScannerState :=
  { stream := false, worker := false, video := true
    timer := none, pending := [], nextId := 0
    autoCapture := true, mockToggle := true
    intervalInput := some 1500, confidenceInput := none
    lastPlate := none, bookingBox := BookingBox.initial, log := []
    inFlight := false, startDisabled := false, stopDisabled := true
    framesCaptured := 0, ocrRequests := 0 }

/-- A concrete running scanner with a capture/OCR cycle in flight (the timer
has fired, so none is pending and `this.timer` holds the stale handle 4). -/
def runningScanner : ScannerState :=
  { stream := true, worker := true, video := true
    timer := some 4, pending := [], nextId := 5
    autoCapture := true, mockToggle := true
    intervalInput := some 1500, confidenceInput := none
    lastPlate := none, bookingBox := BookingBox.initial, log := []
    inFlight := true, startDisabled := true, stopDisabled := false
    framesCaptured := 1, ocrRequests := 1 }

/-! # Theorems

## The winning match is the earliest candidate closest in length to 7 -/

/-- `find?` returns the head of the filtered list. -/
theorem find?_eq_head?_filter {α : Type} (p : α → Bool) (l : List α) :
    l.find? p = (l.filter p).head? := by
  induction l with
  | nil => rfl
  | cons a l ih =>
    cases h : p a
    · rw [List.find?_cons_of_neg _ (by simp [h]), List.filter_cons_of_neg (by simp [h]), ih]
    · rw [List.find?_cons_of_pos _ h, List.filter_cons_of_pos h, List.head?_cons]

/-- The head of the stable sort by `dist7` is the earliest minimizer: the
embedded `sort(...)[0]` computes exactly the spec's selection rule. -/
theorem pickBest_eq_selectClosest7 (ms : List (List Char)) (h : ms ≠ []) :
    pickBest ms = selectClosest7 ms := by
  have htrans : ∀ a b c : List Char, sortKeyLe a b → sortKeyLe b c → sortKeyLe a c := by
    intro a b c
    simp only [sortKeyLe, decide_eq_true_eq]
    omega
  have htotal : ∀ a b : List Char, (sortKeyLe a b || sortKeyLe b a) = true := by
    intro a b
    simp only [sortKeyLe, Bool.or_eq_true, decide_eq_true_eq]
    omega
  have hsorted := List.sorted_mergeSort htrans htotal ms
  have hperm : List.Perm (ms.mergeSort sortKeyLe) ms := List.mergeSort_perm ms sortKeyLe
  cases hrr : ms.mergeSort sortKeyLe with
  | nil =>
    have hlen := hperm.length_eq
    rw [hrr] at hlen
    exact absurd (List.length_eq_zero.mp hlen.symm) h
  | cons h0 t =>
    have hsorted2 : (h0 :: t).Pairwise (fun a b => sortKeyLe a b) := hrr ▸ hsorted
    have hh0min : ∀ q ∈ ms, dist7 h0 ≤ dist7 q := by
      intro q hq
      have hq2 : q ∈ h0 :: t := by
        rw [← hrr]
        exact hperm.mem_iff.mpr hq
      rcases List.mem_cons.mp hq2 with rfl | h1
      · exact le_refl _
      · simpa [sortKeyLe] using List.rel_of_pairwise_cons hsorted2 h1
    have hpredh0 : (fun m => ms.all (fun q => dist7 m ≤ dist7 q)) h0 = true := by
      simpa [List.all_eq_true] using hh0min
    have hc_pair : (ms.filter (fun m => ms.all (fun q => dist7 m ≤ dist7 q))).Pairwise
        (fun a b => sortKeyLe a b) := by
      apply List.pairwise_of_forall_mem_list
      intro a ha b hb
      have ha2 := (List.mem_filter.mp ha).2
      have hb1 := (List.mem_filter.mp hb).1
      have hamin : ∀ q ∈ ms, dist7 a ≤ dist7 q := by simpa [List.all_eq_true] using ha2
      simpa [sortKeyLe] using hamin b hb1
    have hsub : List.Sublist (ms.filter (fun m => ms.all (fun q => dist7 m ≤ dist7 q)))
        (ms.mergeSort sortKeyLe) :=
      List.sublist_mergeSort htrans htotal hc_pair (List.filter_sublist ms)
    have hself : (ms.filter (fun m => ms.all (fun q => dist7 m ≤ dist7 q))).filter
        (fun m => ms.all (fun q => dist7 m ≤ dist7 q)) =
        ms.filter (fun m => ms.all (fun q => dist7 m ≤ dist7 q)) := by
      apply List.filter_eq_self.mpr
      intro a ha
      exact (List.mem_filter.mp ha).2
    have hsub2 : List.Sublist (ms.filter (fun m => ms.all (fun q => dist7 m ≤ dist7 q)))
        ((ms.mergeSort sortKeyLe).filter (fun m => ms.all (fun q => dist7 m ≤ dist7 q))) := by
      have h2 := hsub.filter (fun m => ms.all (fun q => dist7 m ≤ dist7 q))
      rwa [hself] at h2
    have hlen : (ms.filter (fun m => ms.all (fun q => dist7 m ≤ dist7 q))).length =
        ((ms.mergeSort sortKeyLe).filter (fun m => ms.all (fun q => dist7 m ≤ dist7 q))).length :=
      ((hperm.filter _).length_eq).symm
    have hceq := hsub2.eq_of_length hlen
    have hpredh0b : (ms.all fun q => decide (dist7 h0 ≤ dist7 q)) = true := hpredh0
    have hhead : ((ms.mergeSort sortKeyLe).filter
        (fun m => ms.all (fun q => dist7 m ≤ dist7 q))).head? = some h0 := by
      rw [hrr]
      simp [List.filter_cons, hpredh0b]
    have hsel : selectClosest7 ms = some h0 := by
      rw [selectClosest7, find?_eq_head?_filter, hceq, hhead]
    rw [hsel, pickBest, hrr]
    rfl

/-- The component's match loop equals the spec's, pattern by pattern. -/
theorem findFirstMatch_eq_spec (t : List Char) :
    ∀ mps, findFirstMatch mps t = specFindFirst mps t := by
  intro mps
  induction mps with
  | nil => rfl
  | cons mp mps ih =>
    cases hE : (scanMatches mp t).isEmpty with
    | true => simpa [findFirstMatch, specFindFirst, hE] using ih
    | false =>
      simp only [findFirstMatch, specFindFirst, hE, Bool.false_eq_true, if_false]
      refine pickBest_eq_selectClosest7 _ (fun hnil => ?_)
      rw [hnil] at hE
      simp at hE

/-- `normalisePlate` computes the spec's selection on every input. -/
theorem normalisePlate_eq_spec (text : List Char) :
    normalisePlate text = specNormalisePlate text := by
  by_cases h : text = []
  · simp [normalisePlate, specNormalisePlate, h]
  · simp only [normalisePlate, specNormalisePlate, if_neg h]
    exact findFirstMatch_eq_spec _ _

/-! ## Character-class facts -/

theorem word_of_upper {c : Char} (h : isUpperAZ c = true) : isWordJS c = true := by
  simp [isWordJS, h]

theorem word_of_digit {c : Char} (h : isDigit09 c = true) : isWordJS c = true := by
  simp [isWordJS, h]

theorem not_space_of_upper {c : Char} (h : isUpperAZ c = true) : isSpaceJS c = false := by
  simp only [isUpperAZ, Bool.and_eq_true, decide_eq_true_eq] at h
  simp only [isSpaceJS, Bool.or_eq_false_iff, decide_eq_false_iff_not]
  omega

theorem not_space_of_digit {c : Char} (h : isDigit09 c = true) : isSpaceJS c = false := by
  simp only [isDigit09, Bool.and_eq_true, decide_eq_true_eq] at h
  simp only [isSpaceJS, Bool.or_eq_false_iff, decide_eq_false_iff_not]
  omega

theorem not_digit_of_upper {c : Char} (h : isUpperAZ c = true) : isDigit09 c = false := by
  simp only [isUpperAZ, Bool.and_eq_true, decide_eq_true_eq] at h
  simp only [isDigit09, Bool.and_eq_false_iff, decide_eq_false_iff_not]
  omega

theorem not_upper_of_digit {c : Char} (h : isDigit09 c = true) : isUpperAZ c = false := by
  simp only [isDigit09, Bool.and_eq_true, decide_eq_true_eq] at h
  simp only [isUpperAZ, Bool.and_eq_false_iff, decide_eq_false_iff_not]
  omega

/-- `toUpperCase` fixes upper-case letters and digits. -/
theorem toUpper_fixed {c : Char} (h : isUpperAZ c = true ∨ isDigit09 c = true) :
    Char.toUpper c = c := by
  have hn : ¬(Char.toNat c ≥ 97 ∧ Char.toNat c ≤ 122) := by
    rcases h with h | h
    · simp only [isUpperAZ, Bool.and_eq_true, decide_eq_true_eq] at h
      omega
    · simp only [isDigit09, Bool.and_eq_true, decide_eq_true_eq] at h
      omega
  rw [Char.toUpper]
  exact if_neg hn

/-! ## Facts about the matcher combinators -/

theorem lastOr_cons {prev : Option Char} {c : Char} {T : List Char} :
    lastOr prev (c :: T) = lastOr (some c) T := rfl

theorem lastOr_mem {T : List Char} (h : T ≠ []) (prev : Option Char) :
    ∃ c ∈ T, lastOr prev T = some c := by
  induction T generalizing prev with
  | nil => exact absurd rfl h
  | cons c T2 ih =>
    cases hT : T2 with
    | nil => exact ⟨c, by simp, rfl⟩
    | cons d T3 =>
      rw [← hT]
      have hne : T2 ≠ [] := by simp [hT]
      obtain ⟨e, he, hlast⟩ := ih hne (some c)
      exact ⟨e, List.mem_cons_of_mem _ he, hlast⟩

theorem consume1_eq {p : Char → Bool} {st st' : MState} (h : consume1 p st = some st') :
    ∃ c, st.rest = c :: st'.rest ∧ p c = true ∧ st'.prev = some c := by
  obtain ⟨prev, rest⟩ := st
  cases rest with
  | nil => simp [consume1] at h
  | cons c cs =>
    simp only [consume1] at h
    by_cases hp : p c
    · rw [if_pos hp] at h
      cases h
      exact ⟨c, rfl, hp, rfl⟩
    · rw [if_neg hp] at h
      cases h

theorem consumeN_eq {p : Char → Bool} :
    ∀ {n : Nat} {st st' : MState}, consumeN p n st = some st' →
    ∃ T, st.rest = T ++ st'.rest ∧ T.length = n ∧ (∀ c ∈ T, p c = true) ∧
      st'.prev = lastOr st.prev T := by
  intro n
  induction n with
  | zero =>
    intro st st' h
    cases h
    exact ⟨[], by simp, rfl, by simp, rfl⟩
  | succ m ih =>
    intro st st' h
    rw [consumeN] at h
    obtain ⟨st1, h1, h2⟩ := Option.bind_eq_some.mp h
    obtain ⟨c, hc1, hc2, hc3⟩ := consume1_eq h1
    obtain ⟨T, hT1, hT2, hT3, hT4⟩ := ih h2
    refine ⟨c :: T, ?_, by simp [hT2], ?_, ?_⟩
    · rw [hc1, hT1]
      rfl
    · intro d hd
      rcases List.mem_cons.mp hd with rfl | hd
      · exact hc2
      · exact hT3 d hd
    · rw [lastOr_cons, ← hc3]
      exact hT4

theorem consumeN_all {p : Char → Bool} :
    ∀ {T : List Char} {prev : Option Char} {r : List Char}, (∀ c ∈ T, p c = true) →
    consumeN p T.length ⟨prev, T ++ r⟩ = some ⟨lastOr prev T, r⟩ := by
  intro T
  induction T with
  | nil => intro prev r _; rfl
  | cons c T2 ih =>
    intro prev r hT
    have hc : p c = true := hT c (List.mem_cons_self c T2)
    show consumeN p (T2.length + 1) ⟨prev, c :: (T2 ++ r)⟩ = _
    simp only [consumeN, consume1, if_pos hc, Option.bind_eq_bind, Option.some_bind]
    rw [ih (fun d hd => hT d (List.mem_cons_of_mem _ hd))]
    rfl

theorem consumeN_none_short {p : Char → Bool} :
    ∀ {n : Nat} {s : List Char} {prev : Option Char}, s.length < n →
    consumeN p n ⟨prev, s⟩ = none := by
  intro n
  induction n with
  | zero => intro s prev h; omega
  | succ m ih =>
    intro s prev h
    cases s with
    | nil => simp [consumeN, consume1]
    | cons c cs =>
      simp only [consumeN, consume1, Option.bind_eq_bind]
      by_cases hp : p c
      · simp only [if_pos hp, Option.some_bind]
        exact ih (by simpa using h)
      · simp [if_neg hp]

theorem consumeN_none_stop {p : Char → Bool} :
    ∀ {T : List Char} {n : Nat} {c : Char} {r : List Char} {prev : Option Char},
    (∀ x ∈ T, p x = true) → p c = false → T.length < n →
    consumeN p n ⟨prev, T ++ c :: r⟩ = none := by
  intro T
  induction T with
  | nil =>
    intro n c r prev _ hc hn
    cases n with
    | zero => omega
    | succ m =>
      simp only [List.nil_append, consumeN, consume1, Option.bind_eq_bind]
      simp [hc]
  | cons c0 T2 ih =>
    intro n c r prev hT hc hn
    cases n with
    | zero => simp at hn
    | succ m =>
      simp only [List.cons_append, consumeN, consume1, Option.bind_eq_bind,
        if_pos (hT c0 (List.mem_cons_self c0 T2)), Option.some_bind]
      exact ih (fun x hx => hT x (List.mem_cons_of_mem _ hx)) hc (by simpa using hn)

theorem optSpace_eq {k : MState → Option MState} {st st' : MState}
    (h : optSpace k st = some st') :
    (∃ st1, consume1 isSpaceJS st = some st1 ∧ k st1 = some st') ∨ k st = some st' := by
  unfold optSpace at h
  cases hc : consume1 isSpaceJS st with
  | some st1 =>
    rw [hc] at h
    simp only [Option.bind_eq_bind, Option.some_bind] at h
    cases hk : k st1 with
    | some v =>
      rw [hk] at h
      simp only [Option.some_orElse] at h
      exact Or.inl ⟨st1, rfl, hk.trans h⟩
    | none =>
      rw [hk] at h
      simp only [Option.none_orElse] at h
      exact Or.inr h
  | none =>
    rw [hc] at h
    simp only [Option.bind_eq_bind, Option.none_bind, Option.none_orElse] at h
    exact Or.inr h

theorem optSpace_no_space {k : MState → Option MState} {st : MState}
    (h : ∀ c, st.rest.head? = some c → isSpaceJS c = false) :
    optSpace k st = k st := by
  unfold optSpace
  obtain ⟨prev, rest⟩ := st
  cases rest with
  | nil => simp [consume1]
  | cons c cs =>
    have hc := h c rfl
    simp [consume1, hc]

theorem endBoundary_eq {st st' : MState} (h : endBoundary st = some st') :
    st' = st ∧ boundaryAt st = true := by
  unfold endBoundary at h
  by_cases hb : boundaryAt st
  · rw [if_pos hb] at h
    exact ⟨(Option.some.inj h).symm, hb⟩
  · rw [if_neg hb] at h
    cases h

theorem tryCounts_eq {p : Char → Bool} {k : MState → Option MState} :
    ∀ {counts : List Nat} {st st' : MState}, tryCounts p counts k st = some st' →
    ∃ n ∈ counts, ∃ st1, consumeN p n st = some st1 ∧ k st1 = some st' := by
  intro counts
  induction counts with
  | nil => intro st st' h; cases h
  | cons n ns ih =>
    intro st st' h
    rw [tryCounts] at h
    cases hc : consumeN p n st with
    | some st1 =>
      rw [hc] at h
      simp only [Option.bind_eq_bind, Option.some_bind] at h
      cases hk : k st1 with
      | some v =>
        rw [hk] at h
        simp only [Option.some_orElse] at h
        exact ⟨n, List.mem_cons_self n ns, st1, hc, hk.trans h⟩
      | none =>
        rw [hk] at h
        simp only [Option.none_orElse] at h
        obtain ⟨m, hm, st2, hc2, hk2⟩ := ih h
        exact ⟨m, List.mem_cons_of_mem _ hm, st2, hc2, hk2⟩
    | none =>
      rw [hc] at h
      simp only [Option.bind_eq_bind, Option.none_bind, Option.none_orElse] at h
      obtain ⟨m, hm, st2, hc2, hk2⟩ := ih h
      exact ⟨m, List.mem_cons_of_mem _ hm, st2, hc2, hk2⟩

theorem tryCounts_exact {p : Char → Bool} {k : MState → Option MState}
    {T rest : List Char} {prev : Option Char} :
    ∀ {counts : List Nat},
    (∀ c ∈ T, p c = true) →
    (∀ c, rest.head? = some c → p c = false) →
    counts.Pairwise (fun a b => a > b) →
    T.length ∈ counts →
    (k ⟨lastOr prev T, rest⟩).isSome = true →
    tryCounts p counts k ⟨prev, T ++ rest⟩ = k ⟨lastOr prev T, rest⟩ := by
  intro counts
  induction counts with
  | nil => intro _ _ _ hmem _; cases hmem
  | cons n ns ih =>
    intro hT hstop hdesc hmem hk
    rw [tryCounts]
    by_cases hn : n = T.length
    · subst hn
      rw [consumeN_all hT]
      simp only [Option.bind_eq_bind, Option.some_bind]
      obtain ⟨v, hv⟩ := Option.isSome_iff_exists.mp hk
      rw [hv]
      rfl
    · have hmem2 : T.length ∈ ns := by
        rcases List.mem_cons.mp hmem with h | h
        · exact absurd h.symm hn
        · exact h
      have hgt : n > T.length := (List.rel_of_pairwise_cons hdesc) hmem2
      have hfail : consumeN p n ⟨prev, T ++ rest⟩ = none := by
        cases hr : rest with
        | nil => exact consumeN_none_short (by simp [hr]; omega)
        | cons c r2 =>
          exact consumeN_none_stop hT (hstop c (by rw [hr]; rfl)) hgt
      rw [hfail]
      simp only [Option.bind_eq_bind, Option.none_bind, Option.none_orElse]
      exact ih hT hstop (List.Pairwise.of_cons hdesc) hmem2 hk

/-! ## Soundness of the two pattern matchers -/

theorem matchPat1_sound {prev : Option Char} {s : List Char} {st' : MState}
    (h : matchPat1 ⟨prev, s⟩ = some st') :
    ∃ A D SP B, s = A ++ D ++ SP ++ B ++ st'.rest ∧
      A.length = 2 ∧ (∀ c ∈ A, isUpperAZ c = true) ∧
      D.length = 2 ∧ (∀ c ∈ D, isDigit09 c = true) ∧
      SP.length ≤ 1 ∧ (∀ c ∈ SP, isSpaceJS c = true) ∧
      B.length = 3 ∧ (∀ c ∈ B, isUpperAZ c = true) ∧
      (∃ e ∈ B, st'.prev = some e) ∧ boundaryAt st' = true := by
  unfold matchPat1 at h
  by_cases hb : boundaryAt ⟨prev, s⟩
  · rw [if_pos hb] at h
    obtain ⟨st1, h1, h⟩ := Option.bind_eq_some.mp h
    obtain ⟨st2, h2, h⟩ := Option.bind_eq_some.mp h
    obtain ⟨A, hA1, hA2, hA3, hA4⟩ := consumeN_eq h1
    obtain ⟨D, hD1, hD2, hD3, hD4⟩ := consumeN_eq h2
    have hA1b : s = A ++ st1.rest := hA1
    rcases optSpace_eq h with ⟨st3, hsp, h⟩ | h
    · obtain ⟨csp, hsp1, hsp2, hsp3⟩ := consume1_eq hsp
      obtain ⟨st4, h4, h5⟩ := Option.bind_eq_some.mp h
      obtain ⟨B, hB1, hB2, hB3, hB4⟩ := consumeN_eq h4
      obtain ⟨hst4, hbnd⟩ := endBoundary_eq h5
      subst hst4
      have hBne : B ≠ [] := by
        intro hnil
        rw [hnil] at hB2
        simp at hB2
      obtain ⟨e, he, hlast⟩ := lastOr_mem hBne st3.prev
      refine ⟨A, D, [csp], B, ?_, hA2, hA3, hD2, hD3, by simp, ?_, hB2, hB3,
        ⟨e, he, by rw [hB4, hlast]⟩, hbnd⟩
      · rw [hA1b, hD1, hsp1, hB1]
        simp
      · intro c hc
        rw [List.mem_singleton.mp hc]
        exact hsp2
    · obtain ⟨st4, h4, h5⟩ := Option.bind_eq_some.mp h
      obtain ⟨B, hB1, hB2, hB3, hB4⟩ := consumeN_eq h4
      obtain ⟨hst4, hbnd⟩ := endBoundary_eq h5
      subst hst4
      have hBne : B ≠ [] := by
        intro hnil
        rw [hnil] at hB2
        simp at hB2
      obtain ⟨e, he, hlast⟩ := lastOr_mem hBne st2.prev
      refine ⟨A, D, [], B, ?_, hA2, hA3, hD2, hD3, by simp, by simp, hB2, hB3,
        ⟨e, he, by rw [hB4, hlast]⟩, hbnd⟩
      rw [hA1b, hD1, hB1]
      simp
  · rw [if_neg hb] at h
    cases h

theorem matchPat2_sound {prev : Option Char} {s : List Char} {st' : MState}
    (h : matchPat2 ⟨prev, s⟩ = some st') :
    ∃ A D SP B, s = A ++ D ++ SP ++ B ++ st'.rest ∧
      1 ≤ A.length ∧ A.length ≤ 3 ∧ (∀ c ∈ A, isUpperAZ c = true) ∧
      1 ≤ D.length ∧ D.length ≤ 4 ∧ (∀ c ∈ D, isDigit09 c = true) ∧
      SP.length ≤ 1 ∧ (∀ c ∈ SP, isSpaceJS c = true) ∧
      1 ≤ B.length ∧ B.length ≤ 3 ∧ (∀ c ∈ B, isUpperAZ c = true) ∧
      (∃ e ∈ B, st'.prev = some e) ∧ boundaryAt st' = true := by
  unfold matchPat2 at h
  by_cases hb : boundaryAt ⟨prev, s⟩
  · rw [if_pos hb] at h
    obtain ⟨na, hna, st1, h1, h⟩ := tryCounts_eq h
    obtain ⟨nd, hnd, st2, h2, h⟩ := tryCounts_eq h
    obtain ⟨A, hA1, hA2, hA3, hA4⟩ := consumeN_eq h1
    obtain ⟨D, hD1, hD2, hD3, hD4⟩ := consumeN_eq h2
    have hA1b : s = A ++ st1.rest := hA1
    have hnaB : na = 3 ∨ na = 2 ∨ na = 1 := by simpa using hna
    have hndB : nd = 4 ∨ nd = 3 ∨ nd = 2 ∨ nd = 1 := by simpa using hnd
    have hAl1 : 1 ≤ A.length := by omega
    have hAl3 : A.length ≤ 3 := by omega
    have hDl1 : 1 ≤ D.length := by omega
    have hDl4 : D.length ≤ 4 := by omega
    rcases optSpace_eq h with ⟨st3, hsp, h⟩ | h
    · obtain ⟨csp, hsp1, hsp2, hsp3⟩ := consume1_eq hsp
      obtain ⟨nb, hnb, st4, h4, h5⟩ := tryCounts_eq h
      obtain ⟨B, hB1, hB2, hB3, hB4⟩ := consumeN_eq h4
      obtain ⟨hst4, hbnd⟩ := endBoundary_eq h5
      subst hst4
      have hnbB : nb = 3 ∨ nb = 2 ∨ nb = 1 := by simpa using hnb
      have hBl1 : 1 ≤ B.length := by omega
      have hBl3 : B.length ≤ 3 := by omega
      have hBne : B ≠ [] := by
        intro hnil
        rw [hnil] at hB2
        simp at hB2
        omega
      obtain ⟨e, he, hlast⟩ := lastOr_mem hBne st3.prev
      refine ⟨A, D, [csp], B, ?_, hAl1, hAl3, hA3, hDl1, hDl4, hD3, by simp, ?_,
        hBl1, hBl3, hB3, ⟨e, he, by rw [hB4, hlast]⟩, hbnd⟩
      · rw [hA1b, hD1, hsp1, hB1]
        simp
      · intro c hc
        rw [List.mem_singleton.mp hc]
        exact hsp2
    · obtain ⟨nb, hnb, st4, h4, h5⟩ := tryCounts_eq h
      obtain ⟨B, hB1, hB2, hB3, hB4⟩ := consumeN_eq h4
      obtain ⟨hst4, hbnd⟩ := endBoundary_eq h5
      subst hst4
      have hnbB : nb = 3 ∨ nb = 2 ∨ nb = 1 := by simpa using hnb
      have hBl1 : 1 ≤ B.length := by omega
      have hBl3 : B.length ≤ 3 := by omega
      have hBne : B ≠ [] := by
        intro hnil
        rw [hnil] at hB2
        simp at hB2
        omega
      obtain ⟨e, he, hlast⟩ := lastOr_mem hBne st2.prev
      refine ⟨A, D, [], B, ?_, hAl1, hAl3, hA3, hDl1, hDl4, hD3, by simp, by simp,
        hBl1, hBl3, hB3, ⟨e, he, by rw [hB4, hlast]⟩, hbnd⟩
      rw [hA1b, hD1, hB1]
      simp
  · rw [if_neg hb] at h
    cases h

/-! ## Forward evaluation of the matchers on fully-shaped inputs -/

theorem endBoundary_end {prev : Option Char} {e : Char} (he : isWordJS e = true)
    (h : prev = some e) : endBoundary ⟨prev, []⟩ = some ⟨prev, []⟩ := by
  unfold endBoundary boundaryAt
  rw [h]
  simp [he]

theorem matchPat1_nil {prev : Option Char} : matchPat1 ⟨prev, []⟩ = none := by
  simp [matchPat1, consumeN, consume1]

theorem matchPat2_nil {prev : Option Char} : matchPat2 ⟨prev, []⟩ = none := by
  simp [matchPat2, tryCounts, consumeN, consume1]

theorem matchPat1_no_boundary {st : MState} (h : boundaryAt st = false) :
    matchPat1 st = none := by
  unfold matchPat1
  rw [if_neg (by simp [h])]

theorem matchPat2_no_boundary {st : MState} (h : boundaryAt st = false) :
    matchPat2 st = none := by
  unfold matchPat2
  rw [if_neg (by simp [h])]

/-- The current-format pattern consumes a whole `LL DD LLL` word. -/
theorem matchPat1_full {A D B : List Char}
    (hA : ∀ c ∈ A, isUpperAZ c = true) (hAl : A.length = 2)
    (hD : ∀ c ∈ D, isDigit09 c = true) (hDl : D.length = 2)
    (hB : ∀ c ∈ B, isUpperAZ c = true) (hBl : B.length = 3) :
    ∃ st', matchPat1 ⟨none, A ++ D ++ B⟩ = some st' ∧ st'.rest = [] := by
  have hAne : A ≠ [] := by
    intro hnil
    rw [hnil] at hAl
    simp at hAl
  have hBne : B ≠ [] := by
    intro hnil
    rw [hnil] at hBl
    simp at hBl
  obtain ⟨a0, A2, rfl⟩ := List.exists_cons_of_ne_nil hAne
  have hb : boundaryAt ⟨none, (a0 :: A2) ++ D ++ B⟩ = true := by
    simp [boundaryAt, word_of_upper (hA a0 (List.mem_cons_self a0 A2))]
  obtain ⟨d0, D2, rfl⟩ := List.exists_cons_of_ne_nil (by
    intro hnil
    rw [hnil] at hDl
    simp at hDl : D ≠ [])
  obtain ⟨b0, B2, rfl⟩ := List.exists_cons_of_ne_nil hBne
  unfold matchPat1
  rw [if_pos hb]
  have hstep1 : consumeN isUpperAZ 2 ⟨none, (a0 :: A2) ++ ((d0 :: D2) ++ (b0 :: B2))⟩ =
      some ⟨lastOr none (a0 :: A2), (d0 :: D2) ++ (b0 :: B2)⟩ := by
    rw [← hAl]
    exact consumeN_all hA
  have hstep2 : consumeN isDigit09 2 ⟨lastOr none (a0 :: A2), (d0 :: D2) ++ (b0 :: B2)⟩ =
      some ⟨lastOr (lastOr none (a0 :: A2)) (d0 :: D2), b0 :: B2⟩ := by
    rw [← hDl]
    exact consumeN_all hD
  have hstep3 : consumeN isUpperAZ 3 ⟨lastOr (lastOr none (a0 :: A2)) (d0 :: D2), b0 :: B2⟩ =
      some ⟨lastOr (lastOr (lastOr none (a0 :: A2)) (d0 :: D2)) (b0 :: B2), []⟩ := by
    rw [← hBl, ← List.append_nil (b0 :: B2)]
    have := @consumeN_all isUpperAZ (b0 :: B2)
      (lastOr (lastOr none (a0 :: A2)) (d0 :: D2)) [] hB
    simpa using this
  obtain ⟨e, he, hlast⟩ := lastOr_mem hBne (lastOr (lastOr none (a0 :: A2)) (d0 :: D2))
  have hend : endBoundary ⟨lastOr (lastOr (lastOr none (a0 :: A2)) (d0 :: D2)) (b0 :: B2), []⟩ =
      some ⟨lastOr (lastOr (lastOr none (a0 :: A2)) (d0 :: D2)) (b0 :: B2), []⟩ :=
    endBoundary_end (word_of_upper (hB e he)) hlast
  have hnospB : ∀ c, (b0 :: B2).head? = some c → isSpaceJS c = false := by
    intro c hc
    cases hc
    exact not_space_of_upper (hB b0 (List.mem_cons_self b0 B2))
  rw [List.append_assoc, hstep1]
  simp only [Option.bind_eq_bind, Option.some_bind]
  rw [hstep2]
  simp only [Option.some_bind]
  rw [optSpace_no_space hnospB]
  show ∃ st', (consumeN isUpperAZ 3 ⟨lastOr (lastOr none (a0 :: A2)) (d0 :: D2), b0 :: B2⟩ >>=
    endBoundary) = some st' ∧ st'.rest = []
  rw [hstep3]
  simp only [Option.bind_eq_bind, Option.some_bind]
  rw [hend]
  exact ⟨_, rfl, rfl⟩

/-- The cherished pattern consumes a whole `L{a} D{d} L{b}` word. -/
theorem matchPat2_full {A D B : List Char}
    (hA : ∀ c ∈ A, isUpperAZ c = true) (hAl1 : 1 ≤ A.length) (hAl3 : A.length ≤ 3)
    (hD : ∀ c ∈ D, isDigit09 c = true) (hDl1 : 1 ≤ D.length) (hDl4 : D.length ≤ 4)
    (hB : ∀ c ∈ B, isUpperAZ c = true) (hBl1 : 1 ≤ B.length) (hBl3 : B.length ≤ 3) :
    ∃ st', matchPat2 ⟨none, A ++ D ++ B⟩ = some st' ∧ st'.rest = [] := by
  have hAne : A ≠ [] := by
    intro hnil
    rw [hnil] at hAl1
    simp at hAl1
  have hDne : D ≠ [] := by
    intro hnil
    rw [hnil] at hDl1
    simp at hDl1
  have hBne : B ≠ [] := by
    intro hnil
    rw [hnil] at hBl1
    simp at hBl1
  obtain ⟨a0, A2, rfl⟩ := List.exists_cons_of_ne_nil hAne
  obtain ⟨d0, D2, rfl⟩ := List.exists_cons_of_ne_nil hDne
  obtain ⟨b0, B2, rfl⟩ := List.exists_cons_of_ne_nil hBne
  have hb : boundaryAt ⟨none, (a0 :: A2) ++ ((d0 :: D2) ++ (b0 :: B2))⟩ = true := by
    simp [boundaryAt, word_of_upper (hA a0 (List.mem_cons_self a0 A2))]
  obtain ⟨e, he, hlast⟩ := lastOr_mem hBne
    (lastOr (lastOr none (a0 :: A2)) (d0 :: D2))
  -- the innermost quantifier: exactly the b trailing letters, then `\b` at
  -- the very end of the text
  have hstep3 : ∀ pv : Option Char,
      tryCounts isUpperAZ [3, 2, 1] endBoundary ⟨pv, b0 :: B2⟩ =
      some ⟨lastOr pv (b0 :: B2), []⟩ := by
    intro pv
    have hmem : (b0 :: B2).length ∈ [3, 2, 1] := by
      simp only [List.mem_cons]
      have := List.length_pos.mpr (List.cons_ne_nil b0 B2)
      omega
    have hkend : (endBoundary ⟨lastOr pv (b0 :: B2), []⟩).isSome = true := by
      obtain ⟨e2, he2, hlast2⟩ := lastOr_mem (List.cons_ne_nil b0 B2) pv
      rw [endBoundary_end (word_of_upper (hB e2 he2)) hlast2]
      rfl
    have h0 := @tryCounts_exact isUpperAZ endBoundary (b0 :: B2) [] pv [3, 2, 1]
      hB (by intro c hc; cases hc) (by simp) hmem hkend
    rw [List.append_nil] at h0
    rw [h0]
    obtain ⟨e2, he2, hlast2⟩ := lastOr_mem (List.cons_ne_nil b0 B2) pv
    exact endBoundary_end (word_of_upper (hB e2 he2)) hlast2
  -- `\s?` consumes nothing: the trailing letters follow immediately
  have hstep2 : ∀ pv : Option Char,
      optSpace (fun st3 => tryCounts isUpperAZ [3, 2, 1] endBoundary st3) ⟨pv, b0 :: B2⟩ =
      some ⟨lastOr pv (b0 :: B2), []⟩ := by
    intro pv
    rw [optSpace_no_space (by
      intro c hc
      cases hc
      exact not_space_of_upper (hB b0 (List.mem_cons_self b0 B2)))]
    exact hstep3 pv
  -- the digit quantifier: exactly the d digits
  have hstep1 : ∀ pv : Option Char,
      tryCounts isDigit09 [4, 3, 2, 1]
        (fun st2 => optSpace (fun st3 => tryCounts isUpperAZ [3, 2, 1] endBoundary st3) st2)
        ⟨pv, (d0 :: D2) ++ (b0 :: B2)⟩ =
      some ⟨lastOr (lastOr pv (d0 :: D2)) (b0 :: B2), []⟩ := by
    intro pv
    have hmem : (d0 :: D2).length ∈ [4, 3, 2, 1] := by
      simp only [List.mem_cons]
      have := List.length_pos.mpr (List.cons_ne_nil d0 D2)
      omega
    have hstop : ∀ c, (b0 :: B2).head? = some c → isDigit09 c = false := by
      intro c hc
      cases hc
      exact not_digit_of_upper (hB b0 (List.mem_cons_self b0 B2))
    have hk : (optSpace (fun st3 => tryCounts isUpperAZ [3, 2, 1] endBoundary st3)
        ⟨lastOr pv (d0 :: D2), b0 :: B2⟩).isSome = true := by
      rw [hstep2]
      rfl
    have h0 := @tryCounts_exact isDigit09
      (fun st2 => optSpace (fun st3 => tryCounts isUpperAZ [3, 2, 1] endBoundary st3) st2)
      (d0 :: D2) (b0 :: B2) pv [4, 3, 2, 1] hD hstop (by simp) hmem hk
    rw [h0]
    exact hstep2 (lastOr pv (d0 :: D2))
  -- the leading letter quantifier: exactly the a letters
  have hstep0 :
      tryCounts isUpperAZ [3, 2, 1]
        (fun st1 => tryCounts isDigit09 [4, 3, 2, 1]
          (fun st2 => optSpace (fun st3 => tryCounts isUpperAZ [3, 2, 1] endBoundary st3) st2) st1)
        ⟨none, (a0 :: A2) ++ ((d0 :: D2) ++ (b0 :: B2))⟩ =
      some ⟨lastOr (lastOr (lastOr none (a0 :: A2)) (d0 :: D2)) (b0 :: B2), []⟩ := by
    have hmem : (a0 :: A2).length ∈ [3, 2, 1] := by
      simp only [List.mem_cons]
      have := List.length_pos.mpr (List.cons_ne_nil a0 A2)
      omega
    have hstop : ∀ c, ((d0 :: D2) ++ (b0 :: B2)).head? = some c → isUpperAZ c = false := by
      intro c hc
      cases hc
      exact not_upper_of_digit (hD d0 (List.mem_cons_self d0 D2))
    have hk : (tryCounts isDigit09 [4, 3, 2, 1]
        (fun st2 => optSpace (fun st3 => tryCounts isUpperAZ [3, 2, 1] endBoundary st3) st2)
        ⟨lastOr none (a0 :: A2), (d0 :: D2) ++ (b0 :: B2)⟩).isSome = true := by
      rw [hstep1]
      rfl
    have h0 := @tryCounts_exact isUpperAZ
      (fun st1 => tryCounts isDigit09 [4, 3, 2, 1]
        (fun st2 => optSpace (fun st3 => tryCounts isUpperAZ [3, 2, 1] endBoundary st3) st2) st1)
      (a0 :: A2) ((d0 :: D2) ++ (b0 :: B2)) none [3, 2, 1] hA hstop (by simp) hmem hk
    rw [h0]
    exact hstep1 (lastOr none (a0 :: A2))
  unfold matchPat2
  rw [List.append_assoc, if_pos hb, hstep0]
  exact ⟨_, rfl, rfl⟩

/-! ## Facts about the `matchAll` scan -/

theorem scanAux_nil {mp : MState → Option MState} (hnil : ∀ prev, mp ⟨prev, []⟩ = none) :
    ∀ (fuel : Nat) (prev : Option Char), scanAux mp fuel prev [] = [] := by
  intro fuel prev
  cases fuel with
  | zero => rfl
  | succ m => simp only [scanAux, hnil]

/-- A matcher that consumes the whole text at position 0 and cannot match
the empty remainder yields exactly one match. -/
theorem scanMatches_single {mp : MState → Option MState} {s : List Char} {st' : MState}
    (h0 : mp ⟨none, s⟩ = some st') (hrest : st'.rest = []) (hs : s ≠ [])
    (hnospace : stripWS s = s)
    (hnil : ∀ prev, mp ⟨prev, []⟩ = none) :
    scanMatches mp s = [s] := by
  unfold scanMatches
  simp only [scanAux, h0, hrest, List.length_nil, Nat.sub_zero]
  rw [if_pos (List.length_pos.mpr hs)]
  rw [List.take_length, List.drop_length, hnospace, scanAux_nil hnil]

/-- If the matcher fails at position 0 and at every later position, the scan
finds nothing. -/
theorem scanAux_fail {mp : MState → Option MState} :
    ∀ (s : List Char) (fuel : Nat) (prev : Option Char),
    mp ⟨prev, s⟩ = none →
    (∀ (i : Nat) (hi : i < s.length), mp ⟨some (s.get ⟨i, hi⟩), s.drop (i + 1)⟩ = none) →
    scanAux mp fuel prev s = [] := by
  intro s
  induction s with
  | nil =>
    intro fuel prev h0 _
    cases fuel with
    | zero => rfl
    | succ m => simp only [scanAux, h0]
  | cons c cs ih =>
    intro fuel prev h0 hstep
    cases fuel with
    | zero => rfl
    | succ m =>
      simp only [scanAux, h0]
      exact ih m (some c) (by simpa using hstep 0 (by simp))
        (fun i hi => by simpa using hstep (i + 1) (by simpa using hi))

theorem scanMatches_fail {mp : MState → Option MState} {s : List Char}
    (h0 : mp ⟨none, s⟩ = none)
    (hstep : ∀ (i : Nat) (hi : i < s.length), mp ⟨some (s.get ⟨i, hi⟩), s.drop (i + 1)⟩ = none) :
    scanMatches mp s = [] :=
  scanAux_fail s (s.length + 1) none h0 hstep

/-- Every match the scan reports is the whitespace-stripped consumed text of
a successful matcher run, so any property of those transfers to the scan
output. -/
theorem scanAux_sound {mp : MState → Option MState} (P : List Char → Prop)
    (hmp : ∀ (prev : Option Char) (s : List Char) (st1 : MState), mp ⟨prev, s⟩ = some st1 →
      P (stripWS (s.take (s.length - st1.rest.length)))) :
    ∀ (fuel : Nat) (prev : Option Char) (s : List Char), ∀ m ∈ scanAux mp fuel prev s, P m := by
  intro fuel
  induction fuel with
  | zero =>
    intro prev s m hm
    simp [scanAux] at hm
  | succ f ih =>
    intro prev s m hm
    cases hc : mp ⟨prev, s⟩ with
    | some st1 =>
      simp only [scanAux, hc] at hm
      by_cases hn : 0 < s.length - st1.rest.length
      · rw [if_pos hn] at hm
        rcases List.mem_cons.mp hm with rfl | hm
        · exact hmp prev s st1 hc
        · exact ih _ _ m hm
      · rw [if_neg hn] at hm
        rcases List.mem_cons.mp hm with rfl | hm
        · have h0 : s.length - st1.rest.length = 0 := by omega
          have := hmp prev s st1 hc
          rwa [h0, List.take_zero] at this
        · cases s with
          | nil => simp at hm
          | cons c cs => exact ih _ _ m hm
    | none =>
      simp only [scanAux, hc] at hm
      cases s with
      | nil => simp at hm
      | cons c cs => exact ih _ _ m hm

/-- Every character of every reported match comes from the scanned text and
is not whitespace. -/
theorem scanAux_chars {mp : MState → Option MState} :
    ∀ (fuel : Nat) (prev : Option Char) (s : List Char), ∀ m ∈ scanAux mp fuel prev s,
    ∀ c ∈ m, c ∈ s ∧ isSpaceJS c = false := by
  intro fuel
  induction fuel with
  | zero =>
    intro prev s m hm
    simp [scanAux] at hm
  | succ f ih =>
    intro prev s m hm c hcm
    cases hc : mp ⟨prev, s⟩ with
    | some st1 =>
      simp only [scanAux, hc] at hm
      by_cases hn : 0 < s.length - st1.rest.length
      · rw [if_pos hn] at hm
        rcases List.mem_cons.mp hm with rfl | hm
        · have h2 := List.mem_filter.mp hcm
          exact ⟨List.take_subset _ _ h2.1, by simpa using h2.2⟩
        · obtain ⟨h1, h2⟩ := ih _ _ m hm c hcm
          exact ⟨List.drop_subset _ _ h1, h2⟩
      · rw [if_neg hn] at hm
        rcases List.mem_cons.mp hm with rfl | hm
        · simp [stripWS] at hcm
        · cases s with
          | nil => simp at hm
          | cons c0 cs =>
            obtain ⟨h1, h2⟩ := ih _ _ m hm c hcm
            exact ⟨List.mem_cons_of_mem _ h1, h2⟩
    | none =>
      simp only [scanAux, hc] at hm
      cases s with
      | nil => simp at hm
      | cons c0 cs =>
        obtain ⟨h1, h2⟩ := ih _ _ m hm c hcm
        exact ⟨List.mem_cons_of_mem _ h1, h2⟩

theorem scanMatches_sound {mp : MState → Option MState} (P : List Char → Prop)
    (hmp : ∀ (prev : Option Char) (s : List Char) (st1 : MState), mp ⟨prev, s⟩ = some st1 →
      P (stripWS (s.take (s.length - st1.rest.length)))) {s : List Char} :
    ∀ m ∈ scanMatches mp s, P m :=
  fun m hm => scanAux_sound P hmp _ _ _ m hm

theorem scanMatches_chars {mp : MState → Option MState} {s : List Char} :
    ∀ m ∈ scanMatches mp s, ∀ c ∈ m, c ∈ s ∧ isSpaceJS c = false :=
  fun m hm => scanAux_chars _ _ _ m hm

/-! ## The shape of every reported match -/

theorem stripWS_shape {A D SP B : List Char}
    (hA : ∀ c ∈ A, isSpaceJS c = false) (hD : ∀ c ∈ D, isSpaceJS c = false)
    (hSP : ∀ c ∈ SP, isSpaceJS c = true) (hB : ∀ c ∈ B, isSpaceJS c = false) :
    stripWS (A ++ D ++ SP ++ B) = A ++ D ++ B := by
  unfold stripWS
  simp only [List.filter_append]
  rw [List.filter_eq_self.mpr (by intro a ha; simpa using hA a ha),
      List.filter_eq_self.mpr (by intro a ha; simpa using hD a ha),
      List.filter_eq_nil_iff.mpr (by intro a ha; simpa using hSP a ha),
      List.filter_eq_self.mpr (by intro a ha; simpa using hB a ha)]
  simp

theorem shape1_intro (A D B : List Char)
    (hA2 : A.length = 2) (hA3 : ∀ c ∈ A, isUpperAZ c = true)
    (hD2 : D.length = 2) (hD3 : ∀ c ∈ D, isDigit09 c = true)
    (hB2 : B.length = 3) (hB3 : ∀ c ∈ B, isUpperAZ c = true) :
    Shape1 (A ++ D ++ B) :=
  ⟨A, D, B, rfl, hA2, hA3, hD2, hD3, hB2, hB3⟩

theorem shape2_intro (A D B : List Char)
    (hA1 : 1 ≤ A.length) (hA3 : A.length ≤ 3) (hAu : ∀ c ∈ A, isUpperAZ c = true)
    (hD1 : 1 ≤ D.length) (hD4 : D.length ≤ 4) (hDd : ∀ c ∈ D, isDigit09 c = true)
    (hB1 : 1 ≤ B.length) (hB3 : B.length ≤ 3) (hBu : ∀ c ∈ B, isUpperAZ c = true) :
    Shape2 (A ++ D ++ B) :=
  ⟨A, D, B, rfl, hA1, hA3, hAu, hD1, hD4, hDd, hB1, hB3, hBu⟩

theorem consumed_take {s rest C : List Char} (hs : s = C ++ rest) :
    s.take (s.length - rest.length) = C := by
  subst hs
  rw [List.length_append]
  have h2 : C.length + rest.length - rest.length = C.length := by omega
  rw [h2, List.take_left]

theorem matchPat1_take_shape {prev : Option Char} {s : List Char} {st1 : MState}
    (h : matchPat1 ⟨prev, s⟩ = some st1) :
    Shape1 (stripWS (s.take (s.length - st1.rest.length))) := by
  obtain ⟨A, D, SP, B, hs, hA2, hA3, hD2, hD3, hSP1, hSP2, hB2, hB3, _, _⟩ :=
    matchPat1_sound h
  rw [consumed_take hs,
    stripWS_shape (fun c hc => not_space_of_upper (hA3 c hc))
      (fun c hc => not_space_of_digit (hD3 c hc)) hSP2
      (fun c hc => not_space_of_upper (hB3 c hc))]
  exact shape1_intro A D B hA2 hA3 hD2 hD3 hB2 hB3

theorem matchPat2_take_shape {prev : Option Char} {s : List Char} {st1 : MState}
    (h : matchPat2 ⟨prev, s⟩ = some st1) :
    Shape2 (stripWS (s.take (s.length - st1.rest.length))) := by
  obtain ⟨A, D, SP, B, hs, hA1, hA3, hAu, hD1, hD4, hDd, hSP1, hSP2, hB1, hB3, hBu, _, _⟩ :=
    matchPat2_sound h
  rw [consumed_take hs,
    stripWS_shape (fun c hc => not_space_of_upper (hAu c hc))
      (fun c hc => not_space_of_digit (hDd c hc)) hSP2
      (fun c hc => not_space_of_upper (hBu c hc))]
  exact shape2_intro A D B hA1 hA3 hAu hD1 hD4 hDd hB1 hB3 hBu

/-! ## Characters surviving the cleanup -/

theorem cleanPlateText_chars {s : List Char} :
    ∀ c ∈ cleanPlateText s, (isUpperAZ c = true ∧ c ≠ 'O') ∨ isDigit09 c = true ∨ c = ' ' := by
  intro c hc
  unfold cleanPlateText at hc
  obtain ⟨c0, hc0, rfl⟩ := List.mem_map.mp hc
  have hfil := (List.mem_filter.mp hc0).2
  have hfil2 : isUpperAZ c0 = true ∨ isDigit09 c0 = true ∨ c0 = ' ' := by
    simpa [or_assoc] using hfil
  by_cases hO : c0 = 'O'
  · subst hO
    rw [if_pos rfl]
    right
    left
    decide
  · rw [if_neg hO]
    rcases hfil2 with h | h | h
    · exact Or.inl ⟨h, hO⟩
    · exact Or.inr (Or.inl h)
    · exact Or.inr (Or.inr h)

theorem pickBest_mem {ms : List (List Char)} {p : List Char} (h : pickBest ms = some p) :
    p ∈ ms := by
  unfold pickBest at h
  cases hrr : ms.mergeSort sortKeyLe with
  | nil =>
    rw [hrr] at h
    cases h
  | cons h0 t =>
    rw [hrr] at h
    have hp : h0 = p := Option.some.inj (by simpa using h)
    subst hp
    have hmem : h0 ∈ ms.mergeSort sortKeyLe := by
      rw [hrr]
      exact List.mem_cons_self _ _
    exact (List.mergeSort_perm ms sortKeyLe).mem_iff.mp hmem

/-- Every non-null result of `normalisePlate` has one of the two plate
shapes, and consists of upper-case letters other than `O` and digits. -/
theorem normalisePlate_parts {x p : List Char} (h : normalisePlate x = some p) :
    (Shape1 p ∨ Shape2 p) ∧
    (∀ c ∈ p, (isUpperAZ c = true ∧ c ≠ 'O') ∨ isDigit09 c = true) := by
  unfold normalisePlate at h
  by_cases hx : x = []
  · rw [if_pos hx] at h
    cases h
  · rw [if_neg hx] at h
    simp only [findFirstMatch] at h
    have hchar : ∀ hmem : p ∈ scanMatches matchPat1 (cleanPlateText x) ∨
        p ∈ scanMatches matchPat2 (cleanPlateText x),
        ∀ c ∈ p, (isUpperAZ c = true ∧ c ≠ 'O') ∨ isDigit09 c = true := by
      intro hmem c hc
      have h2 : c ∈ cleanPlateText x ∧ isSpaceJS c = false := by
        rcases hmem with hmem | hmem
        · exact scanMatches_chars p hmem c hc
        · exact scanMatches_chars p hmem c hc
      rcases cleanPlateText_chars c h2.1 with hv | hv | hv
      · exact Or.inl hv
      · exact Or.inr hv
      · rw [hv] at h2
        have : isSpaceJS ' ' = true := by decide
        rw [this] at h2
        cases h2.2
    by_cases hE1 : (scanMatches matchPat1 (cleanPlateText x)).isEmpty
    · rw [if_pos hE1] at h
      by_cases hE2 : (scanMatches matchPat2 (cleanPlateText x)).isEmpty
      · rw [if_pos hE2] at h
        cases h
      · rw [if_neg hE2] at h
        have hpm := pickBest_mem h
        refine ⟨Or.inr ?_, hchar (Or.inr hpm)⟩
        exact scanMatches_sound Shape2
          (fun prev s st1 hm => matchPat2_take_shape hm) p hpm
    · rw [if_neg hE1] at h
      have hpm := pickBest_mem h
      refine ⟨Or.inl ?_, hchar (Or.inl hpm)⟩
      exact scanMatches_sound Shape1
        (fun prev s st1 hm => matchPat1_take_shape hm) p hpm

/-- The cleanup pipeline fixes any string of upper-case letters other than
`O` and digits. -/
theorem cleanPlateText_fixed {p : List Char}
    (hchars : ∀ c ∈ p, (isUpperAZ c = true ∧ c ≠ 'O') ∨ isDigit09 c = true) :
    cleanPlateText p = p := by
  induction p with
  | nil => rfl
  | cons c p2 ih =>
    have hc := hchars c (List.mem_cons_self c p2)
    have ih2 := ih (fun d hd => hchars d (List.mem_cons_of_mem _ hd))
    have hup : Char.toUpper c = c := by
      apply toUpper_fixed
      rcases hc with ⟨h1, _⟩ | h1
      · exact Or.inl h1
      · exact Or.inr h1
    have hnn : c ≠ '\n' := by
      intro hnl
      rw [hnl] at hc
      rcases hc with ⟨h1, _⟩ | h1 <;> exact absurd h1 (by decide)
    have hkeep : (isUpperAZ c || isDigit09 c || c = ' ') = true := by
      rcases hc with ⟨h1, _⟩ | h1 <;> simp [h1]
    have hO : c ≠ 'O' := by
      rcases hc with ⟨_, h2⟩ | h2
      · exact h2
      · intro hEq
        rw [hEq] at h2
        exact absurd h2 (by decide)
    show (List.map (fun c => if c = 'O' then '0' else c)
        (List.filter (fun c => isUpperAZ c || isDigit09 c || decide (c = ' '))
          (List.map (fun c => if c = '\n' then ' ' else c)
            (List.map Char.toUpper (c :: p2))))) = c :: p2
    rw [List.map_cons, hup, List.map_cons, if_neg hnn,
      List.filter_cons_of_pos (by simpa using hkeep), List.map_cons, if_neg hO]
    exact congrArg (List.cons c) ih2

/-! ## Idempotence of `normalisePlate` on its own outputs -/

/-- Any non-null output of `normalisePlate` re-normalizes to itself. -/
theorem normalisePlate_idem {x p : List Char} (h : normalisePlate x = some p) :
    normalisePlate p = some p := by
  obtain ⟨hshape, hchars⟩ := normalisePlate_parts h
  have hnospace : stripWS p = p := by
    apply List.filter_eq_self.mpr
    intro c hc
    rcases hchars c hc with ⟨h1, _⟩ | h1
    · simp [not_space_of_upper h1]
    · simp [not_space_of_digit h1]
  have hwordmem : ∀ c ∈ p, isWordJS c = true := by
    intro c hc
    rcases hchars c hc with ⟨h1, _⟩ | h1
    · exact word_of_upper h1
    · exact word_of_digit h1
  have hpne : p ≠ [] := by
    intro hnil
    rcases hshape with ⟨A, D, B, hpeq, hA2, _⟩ | ⟨A, D, B, hpeq, hA1, _⟩
    · rw [hnil] at hpeq
      have hlen := congrArg List.length hpeq
      simp at hlen
      omega
    · rw [hnil] at hpeq
      have hlen := congrArg List.length hpeq
      simp at hlen
      omega
  have hclean : cleanPlateText p = p := cleanPlateText_fixed hchars
  unfold normalisePlate
  rw [if_neg hpne, hclean]
  by_cases h1 : Shape1 p
  · obtain ⟨A, D, B, hpeq, hA2, hAu, hD2, hDd, hB2, hBu⟩ := h1
    obtain ⟨st', hm, hrest⟩ := matchPat1_full hAu hA2 hDd hD2 hBu hB2
    rw [← hpeq] at hm
    have hscan1 : scanMatches matchPat1 p = [p] :=
      scanMatches_single hm hrest hpne hnospace (fun prev => matchPat1_nil)
    simp only [findFirstMatch, hscan1]
    rw [if_neg (by simp)]
    rw [pickBest, List.mergeSort_of_sorted (List.pairwise_singleton _ _)]
    rfl
  · have h2 : Shape2 p := hshape.resolve_left h1
    have hfail0 : matchPat1 ⟨none, p⟩ = none := by
      cases hm : matchPat1 ⟨none, p⟩ with
      | none => rfl
      | some st' =>
        exfalso
        obtain ⟨A, D, SP, B, hs, hA2, hAu, hD2, hDd, hSP1, hSP2, hB2, hBu, hprev, hbnd⟩ :=
          matchPat1_sound hm
        have hSPnil : SP = [] := by
          cases hSP : SP with
          | nil => rfl
          | cons c0 SP2 =>
            have hcmem : c0 ∈ p := by
              rw [hs, hSP]
              simp
            have hsp := hSP2 c0 (by rw [hSP]; exact List.mem_cons_self _ _)
            rcases hchars c0 hcmem with ⟨hu, _⟩ | hd
            · rw [not_space_of_upper hu] at hsp
              cases hsp
            · rw [not_space_of_digit hd] at hsp
              cases hsp
        subst hSPnil
        have hrestnil : st'.rest = [] := by
          cases hr : st'.rest with
          | nil => rfl
          | cons c0 r2 =>
            obtain ⟨e, he, hpe⟩ := hprev
            have hemem : e ∈ p := by
              rw [hs]
              simp [he]
            have hcmem : c0 ∈ p := by
              rw [hs, hr]
              simp
            have hwe := hwordmem e hemem
            have hwc := hwordmem c0 hcmem
            rw [boundaryAt, hpe, hr] at hbnd
            simp [hwe, hwc] at hbnd
        rw [hrestnil, List.append_nil] at hs
        apply h1
        rw [hs]
        have hs2 : A ++ D ++ [] ++ B = A ++ D ++ B := by simp
        rw [hs2]
        exact shape1_intro A D B hA2 hAu hD2 hDd hB2 hBu
    have hfailstep : ∀ (i : Nat) (hi : i < p.length),
        matchPat1 ⟨some (p.get ⟨i, hi⟩), p.drop (i + 1)⟩ = none := by
      intro i hi
      cases hd : p.drop (i + 1) with
      | nil => exact matchPat1_nil
      | cons c0 r2 =>
        have hcmem : c0 ∈ p :=
          List.drop_subset (i + 1) p (by rw [hd]; exact List.mem_cons_self _ _)
        apply matchPat1_no_boundary
        have hwi := hwordmem _ (p.get_mem i hi)
        rw [List.get_eq_getElem] at hwi
        have hwc := hwordmem c0 hcmem
        simp [boundaryAt, hwi, hwc]
    have hscan1 : scanMatches matchPat1 p = [] := scanMatches_fail hfail0 hfailstep
    obtain ⟨A, D, B, hpeq, hA1, hA3, hAu, hD1, hD4, hDd, hB1, hB3, hBu⟩ := h2
    obtain ⟨st', hm, hrest⟩ := matchPat2_full hAu hA1 hA3 hDd hD1 hD4 hBu hB1 hB3
    rw [← hpeq] at hm
    have hscan2 : scanMatches matchPat2 p = [p] :=
      scanMatches_single hm hrest hpne hnospace (fun prev => matchPat2_nil)
    simp only [findFirstMatch, hscan1, hscan2]
    rw [if_pos (by simp), if_neg (by simp)]
    rw [pickBest, List.mergeSort_of_sorted (List.pairwise_singleton _ _)]
    rfl

/-! ## The scanner state machine: timer bookkeeping -/

theorem TimerInv_of_frame {s s2 : ScannerState} (ht : s2.timer = s.timer)
    (hp : s2.pending = s.pending) (hn : s2.nextId = s.nextId) (h : TimerInv s) :
    TimerInv s2 := by
  unfold TimerInv at h ⊢
  rw [ht, hp, hn]
  exact h

theorem scheduleScan_pending {s : ScannerState} (hinv : TimerInv s) :
    (scheduleScan s).pending = [s.nextId] := by
  show (match s.timer with
    | some t => s.pending.erase t
    | none => s.pending) ++ [s.nextId] = [s.nextId]
  rcases hinv.1 with hp | ⟨t0, hp, ht0⟩
  · cases ht : s.timer <;> simp [hp]
  · rw [ht0, hp]
    simp [List.erase_cons_head]

theorem scheduleScan_inv {s : ScannerState} (h : TimerInv s) :
    TimerInv (scheduleScan s) := by
  constructor
  · exact Or.inr ⟨s.nextId, scheduleScan_pending h, rfl⟩
  · intro t ht
    have ht2 : some s.nextId = some t := ht
    rw [← Option.some.inj ht2]
    show s.nextId < s.nextId + 1
    omega

theorem clearTimer_inv {s : ScannerState} (h : TimerInv s) :
    TimerInv (match s.timer with
      | some t => { s with pending := s.pending.erase t, timer := none }
      | none => s) := by
  cases ht : s.timer with
  | none => exact h
  | some t =>
    constructor
    · left
      show s.pending.erase t = []
      rcases h.1 with hp | ⟨t0, hp, ht0⟩
      · simp [hp]
      · rw [ht] at ht0
        have htt : t0 = t := (Option.some.inj ht0).symm
        rw [hp, htt, List.erase_cons_head]
    · intro t2 ht2
      simp at ht2

theorem stopCamera_inv {s : ScannerState} (h : TimerInv s) : TimerInv (stopCamera s) := by
  unfold stopCamera
  cases ht : s.timer with
  | none => exact TimerInv_of_frame rfl rfl rfl h
  | some t =>
    refine TimerInv_of_frame rfl rfl rfl ?_
    have h2 := clearTimer_inv h
    rw [ht] at h2
    exact h2

theorem captureAndRead_frame (s : ScannerState) :
    (captureAndRead s).timer = s.timer ∧ (captureAndRead s).pending = s.pending ∧
    (captureAndRead s).nextId = s.nextId := by
  unfold captureAndRead
  by_cases hg : (s.stream && s.worker && s.video) = true
  · rw [if_pos hg]
    exact ⟨rfl, rfl, rfl⟩
  · rw [if_neg hg]
    exact ⟨rfl, rfl, rfl⟩

theorem erase_inv {s : ScannerState} (t : Nat) (h : TimerInv s) :
    TimerInv { s with pending := s.pending.erase t } := by
  constructor
  · rcases h.1 with hp | ⟨t0, hp, ht0⟩
    · left
      simp [hp]
    · by_cases hte : t0 = t
      · left
        simp [hp, hte, List.erase_cons_head]
      · right
        refine ⟨t0, ?_, ht0⟩
        show (s.pending.erase t) = [t0]
        rw [hp, List.erase_cons, if_neg (by simpa using hte), List.erase_nil]
  · exact h.2

theorem fireTimer_inv {s : ScannerState} {t : Nat} (h : TimerInv s) :
    TimerInv (fireTimer s t) := by
  obtain ⟨h1, h2, h3⟩ := captureAndRead_frame { s with pending := s.pending.erase t }
  exact TimerInv_of_frame h1 h2 h3 (erase_inv t h)

theorem lookupByReg_inv {netFetch : List Char → FetchOutcome} {arrivalIso : List Char}
    {s : ScannerState} {reg : List Char} (h : TimerInv s) :
    TimerInv (lookupByReg netFetch arrivalIso s reg) := by
  simp only [lookupByReg]
  repeat' split
  all_goals exact TimerInv_of_frame rfl rfl rfl h

theorem handleOCRResult_inv {netFetch : List Char → FetchOutcome} {arrivalIso : List Char}
    {s : ScannerState} {d : OCRData} (h : TimerInv s) :
    TimerInv (handleOCRResult netFetch arrivalIso s d) := by
  cases hn : normalisePlate d.text with
  | none =>
    simp only [handleOCRResult, hn]
    exact TimerInv_of_frame rfl rfl rfl h
  | some plate =>
    simp only [handleOCRResult, hn]
    split
    · exact lookupByReg_inv (TimerInv_of_frame rfl rfl rfl h)
    · exact TimerInv_of_frame rfl rfl rfl h

/-- The `finally`-block re-arm preserves the timer invariant. -/
theorem finallyRearm_inv {s2 : ScannerState} (h : TimerInv s2) :
    TimerInv (if s2.autoCapture = true then scheduleScan s2 else s2) := by
  by_cases ha : s2.autoCapture = true
  · rw [if_pos ha]
    exact scheduleScan_inv h
  · rw [if_neg ha]
    exact h

theorem ocrContinuation_inv {netFetch : List Char → FetchOutcome} {arrivalIso : List Char}
    {s : ScannerState} {res : Option OCRData} (h : TimerInv s) :
    TimerInv (ocrContinuation netFetch arrivalIso s res) := by
  unfold ocrContinuation
  apply finallyRearm_inv
  cases res with
  | some d => exact handleOCRResult_inv (TimerInv_of_frame rfl rfl rfl h)
  | none => exact TimerInv_of_frame rfl rfl rfl h

theorem intervalChanged_inv {s : ScannerState} {v : Option Nat} (h : TimerInv s) :
    TimerInv (intervalChanged s v) := by
  simp only [intervalChanged]
  have h2 : TimerInv { s with intervalInput := v } := TimerInv_of_frame rfl rfl rfl h
  split
  · exact scheduleScan_inv h2
  · exact h2

theorem toggleAutoCapture_inv {s : ScannerState} {b : Bool} (h : TimerInv s) :
    TimerInv (toggleAutoCapture s b) := by
  unfold toggleAutoCapture
  have h2 : TimerInv { s with autoCapture := b } := TimerInv_of_frame rfl rfl rfl h
  by_cases hb : b = true
  · rw [if_pos hb]
    exact scheduleScan_inv h2
  · rw [if_neg hb]
    exact clearTimer_inv h2

theorem startCameraSuccess_inv {s : ScannerState} (h : TimerInv s) :
    TimerInv (startCameraSuccess s) := by
  simp only [startCameraSuccess]
  apply finallyRearm_inv
  split
  · exact TimerInv_of_frame rfl rfl rfl h
  · exact TimerInv_of_frame rfl rfl rfl h

theorem manualLookup_inv {netFetch : List Char → FetchOutcome} {arrivalIso : List Char}
    {s : ScannerState} {raw : List Char} (h : TimerInv s) :
    TimerInv (manualLookup netFetch arrivalIso s raw) := by
  unfold manualLookup
  by_cases hv : stripWS (raw.map Char.toUpper) = []
  · rw [if_pos hv]
    exact h
  · rw [if_neg hv]
    exact lookupByReg_inv (TimerInv_of_frame rfl rfl rfl h)

/-! # Claim theorems -/

/-- C1 (code-bug evidence): the cleanup does rewrite every letter `O` to the
digit `0` before any plate-shape pattern is applied, but on the very input
the claim (and the component's own self test, src/app.js line 1985) uses,
`normalisePlate "0O12 CDE"` is `null`, not `"0012CDE"`: after the rewrite
the text is `"0012 CDE"`, which starts with digits, and both plate regexes
require the mark to start with letters, so neither matches. -/
theorem C1_O_rewrite_testcase_fails :
    cleanPlateText "0O12 CDE".toList = "0012 CDE".toList ∧
    ("0O12 CDE".toList, some "0012CDE".toList) ∈ runTestsCases ∧
    normalisePlate "0O12 CDE".toList = none := by
  refine ⟨by decide, by decide, by decide⟩

/-- C3: `normalisePlate` tries the two plate-shape patterns in order
(current format first, then cherished), and from the matches of the first
pattern that yields any, returns the whitespace-stripped match whose length
is closest to 7, ties broken by the earliest match position — which is
exactly what `specNormalisePlate`, written from the spec's wording with
`selectClosest7`, computes. -/
theorem C3_first_pattern_closest7 (text : List Char) :
    normalisePlate text = specNormalisePlate text :=
  normalisePlate_eq_spec text

/-- C6: `normalisePlate` is idempotent on its own non-null outputs: any
canonical plate it returns normalizes to itself. -/
theorem C6_normalize_idempotent (x : Option (List Char)) (p : List Char)
    (h : normalize x = some p) : normalize (some p) = some p := by
  cases x with
  | none => cases h
  | some t => exact normalisePlate_idem h

theorem C6_normalize_idempotent_witness :
    normalize (some "GF12 ABC parked".toList) = some "GF12ABC".toList ∧
    normalize (some "GF12ABC".toList) = some "GF12ABC".toList := by
  have h1 : normalize (some "GF12 ABC parked".toList) = some "GF12ABC".toList := by
    simp only [normalize, normalisePlate_eq_spec]
    decide
  exact ⟨h1, C6_normalize_idempotent (some "GF12 ABC parked".toList) "GF12ABC".toList h1⟩

/-- C7: the reference cases of the normalizer: `null` and the empty string
give `null`; `"AB12 CDE"` and `"ab12cde"` give `"AB12CDE"`; trailing noise
words are ignored. -/
theorem C7_reference_cases :
    normalize none = none ∧
    normalize (some "".toList) = none ∧
    normalisePlate "AB12 CDE".toList = some "AB12CDE".toList ∧
    normalisePlate "ab12cde".toList = some "AB12CDE".toList ∧
    normalisePlate "GF12 ABC parked".toList = some "GF12ABC".toList := by
  refine ⟨rfl, by decide, ?_, ?_, ?_⟩ <;>
    · rw [normalisePlate_eq_spec]
      decide

/-- C4: re-scheduling before the pending timer fires cancels the prior
timer and leaves exactly one armed; two schedules in a row leave exactly
one pending timer (hence one eventual firing); and every modelled operation
preserves the at-most-one-armed-timer invariant. -/
theorem C4_single_timer (netFetch : List Char → FetchOutcome) (arrivalIso : List Char)
    (s : ScannerState) (hinv : TimerInv s) :
    (scheduleScan s).pending = [s.nextId] ∧
    (∀ t, s.timer = some t → t ∉ (scheduleScan s).pending) ∧
    (scheduleScan (scheduleScan s)).pending.length = 1 ∧
    s.pending.length ≤ 1 ∧
    (∀ s2, Step netFetch arrivalIso s s2 → TimerInv s2) := by
  refine ⟨scheduleScan_pending hinv, ?_, ?_, ?_, ?_⟩
  · intro t ht
    rw [scheduleScan_pending hinv]
    have hlt := hinv.2 t ht
    simp only [List.mem_singleton]
    omega
  · rw [scheduleScan_pending (scheduleScan_inv hinv)]
    rfl
  · rcases hinv.1 with hp | ⟨t, hp, _⟩ <;> simp [hp]
  · intro s2 hstep
    cases hstep with
    | schedule => exact scheduleScan_inv hinv
    | stopCam => exact stopCamera_inv hinv
    | fire t hmem => exact fireTimer_inv hinv
    | ocrDone res hin => exact ocrContinuation_inv hinv
    | interval v => exact intervalChanged_inv hinv
    | toggleAuto b => exact toggleAutoCapture_inv hinv
    | startCamOk => exact startCameraSuccess_inv hinv
    | manual raw => exact manualLookup_inv hinv

theorem C4_single_timer_witness :
    TimerInv initScanner ∧
    (scheduleScan initScanner).pending = [initScanner.nextId] ∧
    (scheduleScan (scheduleScan initScanner)).pending.length = 1 := by
  have hinv : TimerInv initScanner := ⟨Or.inl rfl, fun t ht => by simp [initScanner] at ht⟩
  have h := C4_single_timer (fun _ => FetchOutcome.networkError) [] initScanner hinv
  exact ⟨hinv, h.1, h.2.2.1⟩

/-- C5: with the mock disabled, a transport failure and a non-2xx response
both render the "No booking found" box — states indistinguishable from a
genuinely absent booking — and a booking is shown only for a 2xx response
whose body parses as a booking. -/
theorem C5_error_collapse (netFetch : List Char → FetchOutcome) (arrivalIso : List Char)
    (s : ScannerState) (reg : List Char) (hmock : s.mockToggle = false) :
    (netFetch (bookingUrl reg) = FetchOutcome.networkError →
      lookupByReg netFetch arrivalIso s reg = { s with bookingBox := BookingBox.noBookingFound reg }) ∧
    (∀ r, netFetch (bookingUrl reg) = FetchOutcome.success r → r.ok = false →
      lookupByReg netFetch arrivalIso s reg = { s with bookingBox := BookingBox.noBookingFound reg }) ∧
    (∀ b, (lookupByReg netFetch arrivalIso s reg).bookingBox = BookingBox.bookingShown b →
      ∃ r, netFetch (bookingUrl reg) = FetchOutcome.success r ∧ r.ok = true ∧
        r.booking = some b) := by
  have hsel : (if s.mockToggle = true then
      FetchOutcome.success (mockFetch arrivalIso (bookingUrl reg))
    else netFetch (bookingUrl reg)) = netFetch (bookingUrl reg) := by
    rw [hmock]
    simp
  refine ⟨?_, ?_, ?_⟩
  · intro hnet
    simp only [lookupByReg]
    rw [hsel, hnet]
  · intro r hnet hok
    simp only [lookupByReg]
    rw [hsel, hnet]
    simp only [hok, Bool.false_eq_true, if_false]
  · intro b hb
    simp only [lookupByReg, hsel] at hb
    split at hb
    · simp at hb
    · rename_i r heq
      split at hb
      · rename_i hok
        split at hb
        · rename_i b2 hbk
          simp at hb
          exact ⟨r, heq, hok, by rw [hbk, hb]⟩
        · simp at hb
      · simp at hb

theorem C5_error_collapse_witness :
    lookupByReg (fun _ => FetchOutcome.networkError) "T".toList
        { initScanner with mockToggle := false } "AB12CDE".toList =
      { { initScanner with mockToggle := false } with
          bookingBox := BookingBox.noBookingFound "AB12CDE".toList } :=
  (C5_error_collapse (fun _ => FetchOutcome.networkError) "T".toList
    { initScanner with mockToggle := false } "AB12CDE".toList rfl).1 rfl

/-- C8: through the mock gateway, plate `"AB12CDE"` renders a booking whose
`reg` is `"AB12CDE"`, while `"ZZ99ZZZ"` gets a 404 from `mockFetch` and
renders the "No booking found" box. -/
theorem C8_mock_lookup (netFetch : List Char → FetchOutcome) (arrivalIso : List Char)
    (s : ScannerState) (hmock : s.mockToggle = true) :
    (lookupByReg netFetch arrivalIso s "AB12CDE".toList).bookingBox =
      BookingBox.bookingShown (mockBooking arrivalIso "AB12CDE".toList) ∧
    (mockBooking arrivalIso "AB12CDE".toList).reg = "AB12CDE".toList ∧
    (mockFetch arrivalIso (bookingUrl "ZZ99ZZZ".toList)).status = 404 ∧
    (lookupByReg netFetch arrivalIso s "ZZ99ZZZ".toList).bookingBox =
      BookingBox.noBookingFound "ZZ99ZZZ".toList := by
  have hm1 : mockFetch arrivalIso (bookingUrl "AB12CDE".toList) =
      { status := 200, booking := some (mockBooking arrivalIso "AB12CDE".toList) } := rfl
  have hm2 : mockFetch arrivalIso (bookingUrl "ZZ99ZZZ".toList) =
      { status := 404, booking := none } := rfl
  refine ⟨?_, rfl, by rw [hm2], ?_⟩
  · simp only [lookupByReg]
    rw [hmock]
    simp only [if_true, hm1]
    rfl
  · simp only [lookupByReg]
    rw [hmock]
    simp only [if_true, hm2]
    rfl

theorem C8_mock_lookup_witness :
    (lookupByReg (fun _ => FetchOutcome.networkError) "T".toList initScanner
        "AB12CDE".toList).bookingBox =
      BookingBox.bookingShown (mockBooking "T".toList "AB12CDE".toList) ∧
    (lookupByReg (fun _ => FetchOutcome.networkError) "T".toList initScanner
        "ZZ99ZZZ".toList).bookingBox =
      BookingBox.noBookingFound "ZZ99ZZZ".toList := by
  have h := C8_mock_lookup (fun _ => FetchOutcome.networkError) "T".toList initScanner rfl
  exact ⟨h.1, h.2.2.2⟩

/-- C2 (code-bug evidence): `stop()` during an in-flight OCR cycle is not
respected by the cycle's continuation.  From a running scanner with a
recognition in flight, `stopCamera` clears the timer and releases the
stream; yet when the OCR continuation then runs (the code after `await
worker.recognize`, src/app.js lines 1862-1872), it checks no liveness
state: it updates the plate display and the booking box, and its `finally`
block re-arms the scheduler because auto-capture is still checked — so a
timer is armed again after `stop()`. -/
theorem C2_stale_continuation_rearms :
    (stopCamera runningScanner).timer = none ∧
    (stopCamera runningScanner).pending = [] ∧
    (stopCamera runningScanner).stream = false ∧
    (ocrContinuation (fun _ => FetchOutcome.networkError) "T".toList
        (stopCamera runningScanner) (some ⟨"AB12 CDE".toList, some 80⟩)).timer = some 5 ∧
    (ocrContinuation (fun _ => FetchOutcome.networkError) "T".toList
        (stopCamera runningScanner) (some ⟨"AB12 CDE".toList, some 80⟩)).pending = [5] ∧
    (ocrContinuation (fun _ => FetchOutcome.networkError) "T".toList
        (stopCamera runningScanner) (some ⟨"AB12 CDE".toList, some 80⟩)).lastPlate =
      some "AB12 CDE".toList ∧
    (ocrContinuation (fun _ => FetchOutcome.networkError) "T".toList
        (stopCamera runningScanner) (some ⟨"AB12 CDE".toList, some 80⟩)).bookingBox =
      BookingBox.bookingShown (mockBooking "T".toList "AB12CDE".toList) := by
  have h1 : normalisePlate "AB12 CDE".toList = some "AB12CDE".toList := by
    rw [normalisePlate_eq_spec]
    decide
  refine ⟨by decide, by decide, by decide, ?_, ?_, ?_, ?_⟩ <;>
    · simp only [ocrContinuation, handleOCRResult, h1]
      decide

/-- C9: the confidence gate coalesces falsy values — a missing or zero OCR
confidence becomes 55 and an empty, non-numeric or zero threshold input
becomes 45 — so a detected plate with confidence 0 still triggers the
automatic lookup under the default threshold, and a threshold of 0 cannot
be configured at all. -/
theorem C9_confidence_gate_falsy (netFetch : List Char → FetchOutcome)
    (arrivalIso : List Char) (s : ScannerState) (d : OCRData) (plate : List Char)
    (hplate : normalisePlate d.text = some plate)
    (hconf : d.confidence = some 0) (hthr : s.confidenceInput = none) :
    ocrConfidenceValue none = 55 ∧ ocrConfidenceValue (some 0) = 55 ∧
    thresholdValue none = 45 ∧ thresholdValue (some 0) = 45 ∧
    (∀ v, thresholdValue v ≠ 0) ∧
    handleOCRResult netFetch arrivalIso s d =
      lookupByReg netFetch arrivalIso
        { s with lastPlate := some (formatPlate plate)
                 log := LogEntry.detected plate 55 :: s.log } plate := by
  refine ⟨rfl, rfl, rfl, rfl, ?_, ?_⟩
  · intro v
    cases v with
    | none => simp [thresholdValue]
    | some n =>
      by_cases hn : n = 0
      · simp [thresholdValue, hn]
      · simp [thresholdValue, hn]
  · simp only [handleOCRResult, hplate, hconf, hthr]
    rfl

theorem C9_confidence_gate_falsy_witness :
    handleOCRResult (fun _ => FetchOutcome.networkError) "T".toList initScanner
        ⟨"AB12 CDE".toList, some 0⟩ =
      lookupByReg (fun _ => FetchOutcome.networkError) "T".toList
        { initScanner with lastPlate := some (formatPlate "AB12CDE".toList)
                           log := LogEntry.detected "AB12CDE".toList 55 :: initScanner.log }
        "AB12CDE".toList := by
  have h1 : normalisePlate "AB12 CDE".toList = some "AB12CDE".toList := by
    rw [normalisePlate_eq_spec]
    decide
  exact (C9_confidence_gate_falsy (fun _ => FetchOutcome.networkError) "T".toList
    initScanner ⟨"AB12 CDE".toList, some 0⟩ "AB12CDE".toList h1 rfl rfl).2.2.2.2.2

/-- C10: when no camera stream is held or the OCR worker is uninitialized,
a firing of the scheduled scan runs `captureAndRead`, which returns at its
guard: no frame is captured, no OCR is submitted, nothing is logged, the
timer is not re-armed, and the scanner state is unchanged (the event loop
merely retires the fired timer handle). -/
theorem C10_capture_guard_noop (s : ScannerState) (t : Nat)
    (h : s.stream = false ∨ s.worker = false) :
    captureAndRead s = s ∧
    fireTimer s t = { s with pending := s.pending.erase t } := by
  have hg : ¬((s.stream && s.worker && s.video) = true) := by
    rcases h with h | h <;> simp [h]
  constructor
  · unfold captureAndRead
    rw [if_neg hg]
  · unfold fireTimer captureAndRead
    rw [if_neg (by simpa using hg)]

theorem C10_capture_guard_noop_witness :
    captureAndRead initScanner = initScanner ∧
    fireTimer initScanner 0 =
      { initScanner with pending := initScanner.pending.erase 0 } :=
  C10_capture_guard_noop initScanner 0 (Or.inl rfl)

end StarParking
